import Mathlib

/-!
# Merlin console (`pkg/cli/cli.go`): payload decoding and job submission

A shallow embedding of the payload decode chain (`parseHex`,
`parseShellcodeFile`) and of the job-submitting cases of `Shell`, together with
the Go standard-library functions they call (`encoding/hex`,
`encoding/base64`, `strings`).

Conventions.
* A Go `string` / `[]byte` is a list of bytes (`Str`); a byte is `Fin 256`.
* A run of Go code either returns or ends in a run-time panic (`Outcome`).
* Go's `(value, error)` results are `Except`/`Option` values; the console
  messages (`message(...)`) are kept as tags, they never steer control flow.
-/

namespace Merlin

set_option autoImplicit false

/-! ## Bytes and strings -/

/-- A Go `byte`. -/
abbrev Byte := Fin 256

/-- A Go `string` or `[]byte`: a finite sequence of bytes. -/
abbrev Str := List Byte

/-- Go's conversion `byte(n)`: the low eight bits of `n`. -/
def byte (n : Nat) : Byte := ⟨n % 256, Nat.mod_lt n (by decide)⟩

/-- The bytes of an ASCII string literal of the source. -/
def goStr (s : String) : Str := s.toList.map (fun ch => byte ch.toNat)

/-- The result of running Go code that may end in a run-time panic. -/
inductive Outcome (α : Type) where
  | panic : Outcome α
  | ret (a : α) : Outcome α
  deriving DecidableEq, Repr

deriving instance DecidableEq for Except

/-! ## `strings` -/

/-- Go `strings.Join(elems, "")`: concatenation of the elements. -/
def stringsJoin (elems : List Str) : Str := elems.flatten

/-- Go `strings.Join(elems, " ")`. -/
def stringsJoinSpace : List Str → Str
  | [] => []
  | [a] => a
  | a :: b :: rest => a ++ goStr " " ++ stringsJoinSpace (b :: rest)

/-- Go `strings.Contains(s, substr)`. -/
def stringsContains : Str → Str → Bool
  | [], substr => substr.isEmpty
  | c :: cs, substr => substr.isPrefixOf (c :: cs) || stringsContains cs substr

/-- Worker of `stringsReplace`: the first argument counts the bytes of a matched
occurrence of `old` that are still to be skipped. -/
def stringsReplaceAux (old new : Str) : Nat → Str → Str
  | _, [] => []
  | k + 1, _ :: cs => stringsReplaceAux old new k cs
  | 0, c :: cs =>
    if old.isPrefixOf (c :: cs) then new ++ stringsReplaceAux old new (old.length - 1) cs
    else c :: stringsReplaceAux old new 0 cs

/-- Go `strings.Replace(s, old, new, -1)` for a non-empty `old`: every
non-overlapping occurrence of `old`, found left to right, is replaced. -/
def stringsReplace (s old new : Str) : Str := stringsReplaceAux old new 0 s

/-! ## `encoding/hex` -/

/-- Go `hextable`. -/
def hextable : Str := goStr "0123456789abcdef"

/-- Go `hex.EncodeToString`: two lower-case digits per byte
(`hextable[v>>4]`, `hextable[v&0x0f]`). -/
def hexEncodeToString : List Byte → Str
  | [] => []
  | v :: rest =>
    hextable.getD (v.val / 16) 0 :: hextable.getD (v.val % 16) 0 :: hexEncodeToString rest

/-- Go `fromHexChar`: the value of a hexadecimal digit, either case. -/
def fromHexChar (c : Byte) : Option Nat :=
  if 48 ≤ c.val ∧ c.val ≤ 57 then some (c.val - 48)
  else if 97 ≤ c.val ∧ c.val ≤ 102 then some (c.val - 97 + 10)
  else if 65 ≤ c.val ∧ c.val ≤ 70 then some (c.val - 65 + 10)
  else none

/-- The errors of `hex.DecodeString`: `InvalidByteError` and `ErrLength`. -/
inductive HexError where
  | invalidByte (b : Byte) : HexError
  | errLength : HexError
  deriving DecidableEq, Repr

/-- Go `hex.DecodeString`: pairs of digits are decoded left to right, the first
invalid byte is reported, and an odd length is reported after that.  With an
error Go also hands back the bytes decoded so far; no caller in `cli.go` reads
them, so the error case carries the error only. -/
def hexDecodeString : Str → Except HexError (List Byte)
  | [] => .ok []
  | [p] =>
    match fromHexChar p with
    | none => .error (.invalidByte p)
    | some _ => .error .errLength
  | p :: q :: rest =>
    match fromHexChar p with
    | none => .error (.invalidByte p)
    | some a =>
      match fromHexChar q with
      | none => .error (.invalidByte q)
      | some b =>
        match hexDecodeString rest with
        | .ok bs => .ok (byte (a * 16 + b) :: bs)
        | .error e => .error e

/-! ## `encoding/base64` (`StdEncoding`: standard alphabet, padded, not strict) -/

/-- Go `encodeStd`, the standard alphabet. -/
def encodeStd : Str :=
  goStr "ABCDEFGHIJKLMNOPQRSTUVWXYZabcdefghijklmnopqrstuvwxyz0123456789+/"

/-- Go `enc.encode[v]`. -/
def encodeChar (v : Nat) : Byte := encodeStd.getD v 0

/-- Go `enc.decodeMap[c]`: the index of `c` in the alphabet, `none` standing
for the table's `0xFF`. -/
def decodeMap (c : Byte) : Option Nat :=
  if encodeStd.indexOf c < 64 then some (encodeStd.indexOf c) else none

/-- Go `StdPadding`, the character `=`. -/
def padChar : Byte := 61

/-- Go `base64.StdEncoding.EncodeToString`.  `val` is
`src[0]<<16 | src[1]<<8 | src[2]` and the four digits are `val>>18&0x3F`,
`val>>12&0x3F`, `val>>6&0x3F`, `val&0x3F`; a final block of one or two bytes
is padded with `=`. -/
def base64EncodeToString : List Byte → Str
  | [] => []
  | [a] =>
    let val := a.val * 65536
    [encodeChar (val / 262144 % 64), encodeChar (val / 4096 % 64), padChar, padChar]
  | [a, b] =>
    let val := a.val * 65536 + b.val * 256
    [encodeChar (val / 262144 % 64), encodeChar (val / 4096 % 64),
      encodeChar (val / 64 % 64), padChar]
  | a :: b :: c :: rest =>
    let val := a.val * 65536 + b.val * 256 + c.val
    encodeChar (val / 262144 % 64) :: encodeChar (val / 4096 % 64) ::
      encodeChar (val / 64 % 64) :: encodeChar (val % 64) :: base64EncodeToString rest

/-- The characters `\n` and `\r`, which the decoder skips. -/
def isNewline (c : Byte) : Bool := c.val = 10 || c.val = 13

/-- The decoder's loops `for si < len(src) && (src[si] == '\n' || src[si] == '\r')`. -/
def skipNewlines : Str → Str
  | [] => []
  | c :: rest => if isNewline c then skipNewlines rest else c :: rest

/-- The bytes one quantum yields: `dbuf` holds its `dlen` six-bit digits, `val`
is `dbuf[0]<<18 | dbuf[1]<<12 | dbuf[2]<<6 | dbuf[3]` and `dlen - 1` of the
bytes `val>>16`, `val>>8`, `val` are written. -/
def quantumBytes (dbuf : List Nat) : List Byte :=
  let val := dbuf.getD 0 0 * 262144 + dbuf.getD 1 0 * 4096 + dbuf.getD 2 0 * 64 + dbuf.getD 3 0
  [byte (val / 65536), byte (val / 256), byte val].take (dbuf.length - 1)

/-- Go `(*Encoding).Decode` with `decodeQuantum`, for `StdEncoding`.  `dbuf`
holds the digits read so far in the current quantum (`j = dbuf.length`).
`none` stands for a `CorruptInputError`; its offset is only ever printed. -/
def base64Decode : Str → List Nat → Option (List Byte)
  | [], dbuf => if dbuf.length = 0 then some [] else none
  | c :: rest, dbuf =>
    match decodeMap c with
    | some out =>
      if dbuf.length = 3 then
        (base64Decode rest []).map (fun tail => quantumBytes (dbuf ++ [out]) ++ tail)
      else base64Decode rest (dbuf ++ [out])
    | none =>
      if isNewline c then base64Decode rest dbuf
      else if c ≠ padChar then none
      else
        match dbuf.length with
        | 2 =>
          match skipNewlines rest with
          | [] => none
          | d :: rest2 =>
            if d ≠ padChar then none
            else if skipNewlines rest2 ≠ [] then none
            else some (quantumBytes dbuf)
        | 3 => if skipNewlines rest ≠ [] then none else some (quantumBytes dbuf)
        | _ => none

/-- Go `base64.StdEncoding.DecodeString`. -/
def base64DecodeString (s : Str) : Option (List Byte) := base64Decode s []

/-! ## The decode chain -/

/-- Source `parseHex` (cli.go 781-862).  The slice expressions
`hexString[0:2]` panic when the string has fewer than two bytes. -/
def parseHex (str : List Str) : Outcome (Except HexError (List Byte)) :=
  let hexString := stringsJoin str
  let hexString :=
    match base64DecodeString hexString with
    | none => hexString
    | some data => data
  if hexString.length < 2 then .panic
  else
    let hexString :=
      if hexString.take 2 = goStr "0x" then
        let h := stringsReplace hexString (goStr "0x") []
        let h := if stringsContains h (goStr ",") then stringsReplace h (goStr ",") [] else h
        if stringsContains h (goStr " ") then stringsReplace h (goStr " ") [] else h
      else hexString
    if hexString.length < 2 then .panic
    else
      let hexString :=
        if hexString.take 2 = goStr "\\x" then
          let h := stringsReplace hexString (goStr "\\x") []
          let h := if stringsContains h (goStr ",") then stringsReplace h (goStr ",") [] else h
          if stringsContains h (goStr " ") then stringsReplace h (goStr " ") [] else h
        else hexString
      .ret (hexDecodeString hexString)

/-! ## The console: what `Shell` needs of its collaborators -/

/-- An agent identifier (`uuid.UUID`). -/
structure UUID where
  bytes : List Byte
  deriving DecidableEq, Repr

/-- The arguments of one call `agents.AddJob(agentID, jobType, jobArgs)`. -/
structure Job where
  agent : UUID
  jobType : Str
  args : List Str
  deriving DecidableEq, Repr

/-- What `Shell` reads of `shellModule` (`modules.Module`, package `modules`):
the target agent and the result of the method call `Run()`, an argument list
or an error. -/
structure Module where
  Agent : UUID
  Run : Option (List Str)

/-- The collaborators of `cli.go` outside the file.
* `stat p`: `os.Stat(p)`; `none` for an error, otherwise `some (f.IsDir())`.
* `readFile p`: `ioutil.ReadFile(p)`; `none` for an error.
* `toLower`: `strings.ToLower`.
* `shellwordsParse`: `shellwords.Parse`; `none` for an error.
* `addJob j`: whether `agents.AddJob` returned no error for the call `j`. -/
structure Env where
  stat : Str → Option Bool
  readFile : Str → Option (List Byte)
  toLower : Str → Str
  shellwordsParse : Str → Option (List Str)
  addJob : Job → Bool

/-- The calls `message(level, text)` of the modelled cases, by call site.  The
messages printed only under `core.Verbose` or `core.Debug` are left out. -/
inductive Msg where
  /-- Warn: "Not enough arguments. Try using the help command". -/
  | notEnoughArguments
  /-- Warn: the text of an error, `err.Error()`. -/
  | errorText
  /-- Warn: "A directory was provided instead of a file". -/
  | directoryProvided
  /-- Warn: "There was an error parsing the shellcode file". -/
  | shellcodeFileError
  /-- Warn: "Invalid shellcode execution method: ...". -/
  | invalidMethod
  /-- Note: "Created job ... for agent ...". -/
  | createdJob
  /-- Warn: "Invalid command". -/
  | invalidCommand
  /-- Info: "upload local_file_path remote_file_path". -/
  | uploadUsage
  /-- Warn: "There was an error parsing command line argments: ...". -/
  | parseArguments
  /-- Warn: "There was an error accessing the source upload file: ...". -/
  | sourceFile
  deriving DecidableEq, Repr

/-- What one command of the console does: the messages printed and the calls
made to `agents.AddJob`, both in order. -/
structure Effects where
  msgs : List Msg
  jobs : List Job
  deriving DecidableEq, Repr

/-- Source `parseShellcodeFile` (cli.go 865-898).  `none` is the error of
`ioutil.ReadFile`, the only error the function returns. -/
def parseShellcodeFile (env : Env) (filePath : Str) : Outcome (Option (List Byte)) :=
  match env.readFile filePath with
  | none => .ret none
  | some b =>
    match parseHex [b] with
    | .panic => .panic
    | .ret (.error _) => .ret (some b)
    | .ret (.ok h) => .ret (some h)

/-- The statement pattern `m, err := agents.AddJob(...)` followed by the warning
or the note: one call is made and one message printed. -/
def addJobAndReport (env : Env) (j : Job) : Effects :=
  ⟨[if env.addJob j then Msg.createdJob else Msg.errorText], [j]⟩

/-- The second `switch strings.ToLower(cmd[1])` of case "execute-shellcode"
(cli.go 319-354), run once `b64` is known. -/
def submitShellcode (env : Env) (shellAgent : UUID) (cmd : List Str) (b64 : Str) : Effects :=
  let method := env.toLower (cmd.getD 1 [])
  if method = goStr "self" then
    addJobAndReport env ⟨shellAgent, goStr "shellcode", [goStr "self", b64]⟩
  else if method = goStr "remote" then
    addJobAndReport env ⟨shellAgent, goStr "shellcode", [goStr "remote", cmd.getD 2 [], b64]⟩
  else if method = goStr "rtlcreateuserthread" then
    addJobAndReport env
      ⟨shellAgent, goStr "shellcode", [goStr "rtlcreateuserthread", cmd.getD 2 [], b64]⟩
  else if method = goStr "userapc" then
    addJobAndReport env ⟨shellAgent, goStr "shellcode", [goStr "userapc", cmd.getD 2 [], b64]⟩
  else ⟨[Msg.invalidMethod], []⟩

/-- The first `switch strings.ToLower(cmd[1])` of case "execute-shellcode"
(cli.go 246-274): the position `i` of the payload in `cmd` (0 when there is
none) and the messages printed. -/
def payloadPosition (env : Env) (cmd : List Str) : Nat × List Msg :=
  let method := env.toLower (cmd.getD 1 [])
  if method = goStr "self" then (2, [])
  else if method = goStr "remote" then
    if cmd.length > 3 then (3, []) else (0, [Msg.notEnoughArguments])
  else if method = goStr "rtlcreateuserthread" then
    if cmd.length > 3 then (3, []) else (0, [Msg.notEnoughArguments])
  else if method = goStr "userapc" then
    if cmd.length > 3 then (3, []) else (0, [Msg.notEnoughArguments])
  else (0, [Msg.notEnoughArguments])

/-- Case "execute-shellcode" of the agent menu of `Shell` (cli.go 243-355);
`cmd` is the command line split into fields, `cmd[0]` being the command.  The
indexings `cmd[1]`, `cmd[2]`, `cmd[i]` are all guarded by the length tests, so
the default of `getD` is never used.  A `break` leaves the case. -/
def shellExecuteShellcode (env : Env) (shellAgent : UUID) (cmd : List Str) : Outcome Effects :=
  if cmd.length > 2 then
    let (i, msgs) := payloadPosition env cmd
    if i > 0 then
      match env.stat (cmd.getD i []) with
      | none =>
        match parseHex (cmd.drop i) with
        | .panic => .panic
        | .ret (.error _) => .ret ⟨msgs ++ [Msg.errorText], []⟩
        | .ret (.ok h) =>
          let e := submitShellcode env shellAgent cmd (base64EncodeToString h)
          .ret ⟨msgs ++ e.msgs, e.jobs⟩
      | some true => .ret ⟨msgs ++ [Msg.directoryProvided], []⟩
      | some false =>
        match parseShellcodeFile env (cmd.getD i []) with
        | .panic => .panic
        | .ret none => .ret ⟨msgs ++ [Msg.shellcodeFileError, Msg.errorText], []⟩
        | .ret (some b) =>
          let e := submitShellcode env shellAgent cmd (base64EncodeToString b)
          .ret ⟨msgs ++ e.msgs, e.jobs⟩
    else .ret ⟨msgs ++ [Msg.notEnoughArguments], []⟩
  else .ret ⟨[], []⟩

/-- Case "upload" of the agent menu of `Shell` (cli.go 428-453). -/
def shellUpload (env : Env) (shellAgent : UUID) (cmd : List Str) : Effects :=
  if cmd.length ≥ 3 then
    let arg := stringsJoinSpace (cmd.drop 1)
    match env.shellwordsParse arg with
    | none => ⟨[Msg.parseArguments], []⟩
    | some argS =>
      if argS.length ≥ 2 then
        match env.stat (argS.getD 0 []) with
        | none => ⟨[Msg.sourceFile], []⟩
        | some _ => addJobAndReport env ⟨shellAgent, goStr "upload", argS.take 2⟩
      else ⟨[], []⟩
  else ⟨[Msg.invalidCommand, Msg.uploadUsage], []⟩

/-- Case "run" of the module menu of `Shell` (cli.go 176-187). -/
def shellModuleRun (env : Env) (shellModule : Module) : Effects :=
  match shellModule.Run with
  | none => ⟨[Msg.errorText], []⟩
  | some r => addJobAndReport env ⟨shellModule.Agent, goStr "cmd", r⟩

/-! ## The console: menu state -/

/-- What `menuSetAgent` reads of a record of the map `agents.Agents`: its `ID`. -/
structure AgentRecord where
  ID : UUID
  deriving DecidableEq, Repr

/-- The collaborators of the menu functions as they stand while one command
line is processed.
* `env`: the host and `agents.AddJob`, as for the job-submitting cases.
* `agents`: the entries of the map `agents.Agents`, each a key and its record;
  `for k := range agents.Agents` visits every entry and `agents.Agents[k]` is
  the record of the entry.
* `uuidFromString`: `uuid.FromString`; `none` for an error.
* `modulesCreate cmd`: `modules.Create(path.Join(core.CurrentDir, "data",
  "modules", cmd+".json"))`; `none` for an error.
* `modulePath m`: `strings.TrimSuffix(strings.Join(m.Path, "/"), ".json")`.
* `setAgent m a`, `setOption m k v`: `shellModule` after the method calls
  `SetAgent(a)` and `SetOption(k, v)`. -/
structure World where
  env : Env
  agents : List (UUID × AgentRecord)
  uuidFromString : Str → Option UUID
  modulesCreate : Str → Option Module
  modulePath : Module → Str
  setAgent : Module → Str → Module
  setOption : Module → Str → Str → Module

/-- The global variables of `cli.go` that the menu functions write:
`shellMenuContext`, `shellAgent` and `shellModule`. -/
structure ShellState where
  shellMenuContext : Str
  shellAgent : UUID
  shellModule : Module

/-- The state `Shell` starts in: `shellMenuContext = "main"`, the zero UUID,
and the zero value `m0` of `modules.Module`. -/
def initialState (m0 : Module) : ShellState :=
  ⟨goStr "main", ⟨List.replicate 16 0⟩, m0⟩

/-- Source `menuSetMain` (cli.go 561-565). -/
def menuSetMain (st : ShellState) : ShellState :=
  { st with shellMenuContext := goStr "main" }

/-- Source `menuSetAgent` (cli.go 535-544): for every entry of `agents.Agents`
whose record has the ID `agentID`, the agent is selected and the agent menu
entered. -/
def menuSetAgent (w : World) (agentID : UUID) (st : ShellState) : ShellState :=
  w.agents.foldl
    (fun s entry =>
      if agentID = entry.2.ID then
        { s with shellAgent := agentID, shellMenuContext := goStr "agent" }
      else s)
    st

/-- Source `menuSetModule` (cli.go 546-559). -/
def menuSetModule (w : World) (cmd : Str) (st : ShellState) : ShellState :=
  if cmd.length > 0 then
    match w.modulesCreate cmd with
    | none => st
    | some m => { st with shellModule := m, shellMenuContext := goStr "module" }
  else st

/-- Source `menuUse` (cli.go 469-485). -/
def menuUse (w : World) (cmd : List Str) (st : ShellState) : ShellState :=
  if cmd.length > 0 then
    if cmd.getD 0 [] = goStr "module" then
      if cmd.length > 1 then menuSetModule w (cmd.getD 1 []) st else st
    else st
  else st

/-- Source `menuAgent` (cli.go 487-533); every caller passes a non-empty `cmd`.
Case "list" prints the table and case "remove" calls `agents.RemoveAgent`;
neither writes a variable of the console. -/
def menuAgent (w : World) (cmd : List Str) (st : ShellState) : ShellState :=
  if cmd.getD 0 [] = goStr "list" then st
  else if cmd.getD 0 [] = goStr "interact" then
    if cmd.length > 1 then
      match w.uuidFromString (cmd.getD 1 []) with
      | none => st
      | some i => menuSetAgent w i st
    else st
  else if cmd.getD 0 [] = goStr "remove" then st
  else st

/-- The main menu of `Shell` (cli.go 98-142).  `none`: `exit()` ended the
process. -/
def shellMain (w : World) (st : ShellState) (cmd : List Str) : Option ShellState :=
  if cmd.getD 0 [] = goStr "agent" then
    if cmd.length > 1 then some (menuAgent w (cmd.drop 1) st) else some st
  else if cmd.getD 0 [] = goStr "banner" then some st
  else if cmd.getD 0 [] = goStr "help" then some st
  else if cmd.getD 0 [] = goStr "?" then some st
  else if cmd.getD 0 [] = goStr "exit" then none
  else if cmd.getD 0 [] = goStr "interact" then
    if cmd.length > 1 then some (menuAgent w [goStr "interact", cmd.getD 1 []] st) else some st
  else if cmd.getD 0 [] = goStr "quit" then none
  else if cmd.getD 0 [] = goStr "remove" then
    if cmd.length > 1 then some (menuAgent w [goStr "remove", cmd.getD 1 []] st) else some st
  else if cmd.getD 0 [] = goStr "sessions" then some (menuAgent w [goStr "list"] st)
  else if cmd.getD 0 [] = goStr "use" then some (menuUse w (cmd.drop 1) st)
  else if cmd.getD 0 [] = goStr "version" then some st
  else some st

/-- The module menu of `Shell` (cli.go 143-208). -/
def shellModuleMenu (w : World) (st : ShellState) (cmd : List Str) : Option ShellState :=
  if cmd.getD 0 [] = goStr "show" then some st
  else if cmd.getD 0 [] = goStr "info" then some st
  else if cmd.getD 0 [] = goStr "set" then
    if cmd.length > 2 then
      if cmd.getD 1 [] = goStr "agent" then
        some { st with shellModule := w.setAgent st.shellModule (cmd.getD 2 []) }
      else
        some { st with shellModule := w.setOption st.shellModule (cmd.getD 1 []) (cmd.getD 2 []) }
    else some st
  else if cmd.getD 0 [] = goStr "reload" then
    some (menuSetModule w (w.modulePath st.shellModule) st)
  else if cmd.getD 0 [] = goStr "run" then some st
  else if cmd.getD 0 [] = goStr "back" then some (menuSetMain st)
  else if cmd.getD 0 [] = goStr "main" then some (menuSetMain st)
  else if cmd.getD 0 [] = goStr "exit" then none
  else if cmd.getD 0 [] = goStr "quit" then none
  else if cmd.getD 0 [] = goStr "help" then some st
  else if cmd.getD 0 [] = goStr "?" then some st
  else some st

/-- The agent menu of `Shell` (cli.go 209-462).  `none`: the process ended, by
`exit()` or by the panic of case "execute-shellcode".  The cases that only
submit a job or print leave the variables of the console as they are. -/
def shellAgentMenu (w : World) (st : ShellState) (cmd : List Str) : Option ShellState :=
  if cmd.getD 0 [] = goStr "back" then some (menuSetMain st)
  else if cmd.getD 0 [] = goStr "cmd" then some st
  else if cmd.getD 0 [] = goStr "download" then some st
  else if cmd.getD 0 [] = goStr "execute-shellcode" then
    match shellExecuteShellcode w.env st.shellAgent cmd with
    | .panic => none
    | .ret _ => some st
  else if cmd.getD 0 [] = goStr "exit" then none
  else if cmd.getD 0 [] = goStr "help" then some st
  else if cmd.getD 0 [] = goStr "?" then some st
  else if cmd.getD 0 [] = goStr "info" then some st
  else if cmd.getD 0 [] = goStr "kill" then
    if cmd.length > 0 then some (menuSetMain st) else some st
  else if cmd.getD 0 [] = goStr "main" then some (menuSetMain st)
  else if cmd.getD 0 [] = goStr "quit" then none
  else if cmd.getD 0 [] = goStr "set" then some st
  else if cmd.getD 0 [] = goStr "shell" then some st
  else if cmd.getD 0 [] = goStr "upload" then some st
  else some st

/-- One turn of the loop of `Shell` (cli.go 93-464) on the fields `cmd` of the
line read: the variables of the console afterwards, or `none` when the process
ended. -/
def shellStep (w : World) (st : ShellState) (cmd : List Str) : Option ShellState :=
  if cmd.length > 0 then
    if st.shellMenuContext = goStr "main" then shellMain w st cmd
    else if st.shellMenuContext = goStr "module" then shellModuleMenu w st cmd
    else if st.shellMenuContext = goStr "agent" then shellAgentMenu w st cmd
    else some st
  else some st

/-- A step selects an agent when it ends in the agent menu and either entered
it or changed `shellAgent`. -/
def isSelection (s s' : ShellState) : Bool :=
  s'.shellMenuContext = goStr "agent" ∧
    (s.shellMenuContext ≠ goStr "agent" ∨ s'.shellAgent ≠ s.shellAgent)

/-- A run of the console over a sequence of command lines, each with the
collaborators as they stand at that moment.  Beside the state it yields the
agent registry as it stood at the latest step that selected an agent
(`isSelection`); `none` when the process ended. -/
def runShellLog (s : ShellState) (log : Option (List (UUID × AgentRecord))) :
    List (World × List Str) → Option (ShellState × Option (List (UUID × AgentRecord)))
  | [] => some (s, log)
  | (w, cmd) :: rest =>
    match shellStep w s cmd with
    | none => none
    | some s' => runShellLog s' (if isSelection s s' then some w.agents else log) rest

/-! ## Concrete collaborators for the worked examples -/

/-- Go `strings.ToLower` on ASCII text: `A`..`Z` become `a`..`z`. -/
def asciiToLower (s : Str) : Str :=
  s.map (fun c => if 65 ≤ c.val ∧ c.val ≤ 90 then byte (c.val + 32) else c)

/-- Splitting at single spaces; what `shellwords.Parse` returns for plain
words (no quotes, escapes or expansions) separated by single spaces. -/
def splitSpaces : Str → List Str
  | [] => [[]]
  | c :: rest =>
    if c = 32 then [] :: splitSpaces rest
    else
      match splitSpaces rest with
      | [] => [[c]]
      | w :: ws => (c :: w) :: ws

/-- A server host with the regular files `/tmp/sc.bin` (the text `\x90\xc3`),
`/tmp/empty` (no content) and `/tmp/a`, the directory `/tmp`, and nothing
else; `agents.AddJob` accepts every job. -/
def exampleEnv : Env where
  stat := fun p =>
    if p = goStr "/tmp" then some true
    else if p = goStr "/tmp/sc.bin" ∨ p = goStr "/tmp/empty" ∨ p = goStr "/tmp/a" then some false
    else none
  readFile := fun p =>
    if p = goStr "/tmp/sc.bin" then some (goStr "\\x90\\xc3")
    else if p = goStr "/tmp/empty" then some []
    else if p = goStr "/tmp/a" then some (goStr "hello")
    else none
  toLower := asciiToLower
  shellwordsParse := fun s => some (splitSpaces s)
  addJob := fun _ => true

/-- The agent selected in the worked examples. -/
def exampleAgent : UUID := ⟨List.replicate 16 7⟩

/-- The command line `execute-shellcode REMOTE 1234 0x90, 0xc3`, split into fields. -/
def exampleShellcodeCmd : List Str :=
  [goStr "execute-shellcode", goStr "REMOTE", goStr "1234", goStr "0x90,", goStr "0xc3"]

/-- The job the command line `exampleShellcodeCmd` submits; `kMM=` is the
base64 encoding of the bytes `90 c3`. -/
def exampleShellcodeJob : Job :=
  ⟨exampleAgent, goStr "shellcode", [goStr "remote", goStr "1234", goStr "kMM="]⟩

/-- The command line `upload /tmp/a /x/b`: two arguments. -/
def exampleUpload2 : List Str := [goStr "upload", goStr "/tmp/a", goStr "/x/b"]

/-- The upload job for the local path `/tmp/a` and the remote path `/x/b`. -/
def exampleUploadJob : Job := ⟨exampleAgent, goStr "upload", [goStr "/tmp/a", goStr "/x/b"]⟩

/-- A module aimed at `exampleAgent` whose `Run()` returns the argument list
`["whoami"]`. -/
def exampleModule : Module := ⟨exampleAgent, some [goStr "whoami"]⟩

/-- The command line `execute-shellcode self zz`: `zz` is no file of the example
host and no hexadecimal text. -/
def exampleBadHexCmd : List Str := [goStr "execute-shellcode", goStr "self", goStr "zz"]

/-- The text form of `exampleAgent`. -/
def exampleAgentText : Str := goStr "07070707-0707-0707-0707-070707070707"

/-- The example host with `exampleAgent` registered, and no module on disk. -/
def exampleWorld : World where
  env := exampleEnv
  agents := [(exampleAgent, ⟨exampleAgent⟩)]
  uuidFromString := fun t => if t = exampleAgentText then some exampleAgent else none
  modulesCreate := fun _ => none
  modulePath := fun _ => []
  setAgent := fun m _ => m
  setOption := fun m _ _ => m

/-- The same host after the agent was removed from the registry. -/
def exampleWorldEmpty : World := { exampleWorld with agents := [] }

/-- The state after `interact` selected `exampleAgent`. -/
def exampleSelected : ShellState := ⟨goStr "agent", exampleAgent, exampleModule⟩

/-- A session: the agent is selected while registered, then removed from the
registry, then `info` is typed in the agent menu. -/
def exampleSession : List (World × List Str) :=
  [(exampleWorld, [goStr "interact", exampleAgentText]), (exampleWorldEmpty, [goStr "info"])]

/-! ## Vocabulary of the statements -/

/-- Whether an agent is registered: some record of `agents.Agents` has its ID. -/
def Registered (w : World) (id : UUID) : Prop := ∃ e ∈ w.agents, e.2.ID = id

/-- The text the prefix steps of `parseHex` work on: the base64 decoding of the
joined tokens when that succeeds, else the joined tokens themselves. -/
def chainText (str : List Str) : Str :=
  match base64DecodeString (stringsJoin str) with
  | none => stringsJoin str
  | some data => data

/-- One prefix step of `parseHex`: every occurrence of `marker` is removed, then
the commas, then the spaces. -/
def stripMarker (marker h : Str) : Str :=
  let h := stringsReplace h marker []
  let h := if stringsContains h (goStr ",") then stringsReplace h (goStr ",") [] else h
  if stringsContains h (goStr " ") then stringsReplace h (goStr " ") [] else h

/-- The literal form of claim C12: the bytes of a sequence written `0xHH`, with
lower-case digits, and separated by commas (`0x90` for one byte, `0x90,0x90`
for two). -/
def render0x : List Byte → Str
  | [] => []
  | [v] => goStr "0x" ++ hexEncodeToString [v]
  | v :: w :: rest => goStr "0x" ++ hexEncodeToString [v] ++ goStr "," ++ render0x (w :: rest)

/-- The form `render0x` without its `0x` markers: the hex digits of the bytes,
separated by commas. -/
def commaHex : List Byte → Str
  | [] => []
  | [v] => hexEncodeToString [v]
  | v :: w :: rest => hexEncodeToString [v] ++ goStr "," ++ commaHex (w :: rest)

/-- The bytes of a sequence written `\xHH`, with lower-case digits, one after
the other (`\x90\xc3` for the bytes `90 c3`). -/
def renderBackslashX : List Byte → Str
  | [] => []
  | v :: rest => goStr "\\x" ++ hexEncodeToString [v] ++ renderBackslashX rest

/-- The payload of an `execute-shellcode` command whose payload starts at
`cmd[i]`: when `cmd[i]` is no file on the host, what `parseHex` returns on the
tokens `cmd[i:]`; when it is a regular file, what `parseShellcodeFile` returns
on that path. -/
def IsPayload (env : Env) (cmd : List Str) (i : Nat) (payload : List Byte) : Prop :=
  (env.stat (cmd.getD i []) = none ∧ parseHex (cmd.drop i) = .ret (.ok payload)) ∨
  (env.stat (cmd.getD i []) = some false ∧
    parseShellcodeFile env (cmd.getD i []) = .ret (some payload))

/-- The shape of a shellcode job for the command line `cmd`: `["self", p]` for
method self, `[m, cmd[2], p]` for the three other methods, `p` being the base64
encoding of the payload. -/
def IsShellcodeJob (env : Env) (shellAgent : UUID) (cmd : List Str) (j : Job) : Prop :=
  j.agent = shellAgent ∧ j.jobType = goStr "shellcode" ∧
  ((env.toLower (cmd.getD 1 []) = goStr "self" ∧
      ∃ payload, IsPayload env cmd 2 payload ∧
        j.args = [goStr "self", base64EncodeToString payload]) ∨
   (∃ m, m ∈ [goStr "remote", goStr "rtlcreateuserthread", goStr "userapc"] ∧
      env.toLower (cmd.getD 1 []) = m ∧ 3 < cmd.length ∧
      ∃ payload, IsPayload env cmd 3 payload ∧
        j.args = [m, cmd.getD 2 [], base64EncodeToString payload]))

/-! ## Lemmas on the library functions -/

theorem byte_val (n : Nat) : (byte n).val = n % 256 := rfl

theorem byte_eq_of_val (n : Nat) (b : Byte) (h : n % 256 = b.val) : byte n = b :=
  Fin.ext h

theorem decodeMap_encodeChar_lt : ∀ v, v < 64 → decodeMap (encodeChar v) = some v := by
  decide

theorem decodeMap_encodeChar (v : Nat) : decodeMap (encodeChar (v % 64)) = some (v % 64) :=
  decodeMap_encodeChar_lt _ (Nat.mod_lt _ (by decide))

theorem decodeMap_padChar : decodeMap padChar = none := by decide

theorem isNewline_padChar : isNewline padChar = false := by decide

/-- Decoding inverts encoding: `DecodeString(EncodeToString(bs)) = bs`. -/
theorem base64Decode_encode (bs : List Byte) :
    base64Decode (base64EncodeToString bs) [] = some bs := by
  induction bs using base64EncodeToString.induct with
  | case1 => simp [base64EncodeToString, base64Decode]
  | case2 a =>
    have ha := a.isLt
    simp [base64EncodeToString, base64Decode, decodeMap_encodeChar, decodeMap_padChar,
      isNewline_padChar, skipNewlines, quantumBytes]
    apply byte_eq_of_val
    omega
  | case3 a b =>
    have ha := a.isLt
    have hb := b.isLt
    simp [base64EncodeToString, base64Decode, decodeMap_encodeChar, decodeMap_padChar,
      isNewline_padChar, skipNewlines, quantumBytes]
    constructor <;> apply byte_eq_of_val <;> omega
  | case4 a b c rest ih =>
    have ha := a.isLt
    have hb := b.isLt
    have hc := c.isLt
    simp [base64EncodeToString, base64Decode, decodeMap_encodeChar, ih, quantumBytes]
    refine ⟨?_, ?_, ?_⟩ <;> apply byte_eq_of_val <;> omega

theorem fromHexChar_hextable : ∀ n, n < 16 → fromHexChar (hextable.getD n 0) = some n := by
  decide

theorem hextable_ne_x : ∀ n, n < 16 → hextable.getD n 0 ≠ (120 : Byte) := by
  decide

theorem goStr_0x : goStr "0x" = [48, 120] := by decide

theorem goStr_backslash_x : goStr "\\x" = [92, 120] := by decide

/-- Hex decoding inverts hex encoding. -/
theorem hexDecode_encode (X : List Byte) : hexDecodeString (hexEncodeToString X) = .ok X := by
  induction X with
  | nil => rfl
  | cons v rest ih =>
    have hv := v.isLt
    have h1 : v.val / 16 < 16 := by omega
    have h2 : v.val % 16 < 16 := by omega
    simp only [hexEncodeToString, hexDecodeString, fromHexChar_hextable _ h1,
      fromHexChar_hextable _ h2, ih]
    congr 2
    apply byte_eq_of_val
    omega

/-- The hex digits of a non-empty byte sequence: at least two characters, and
the second one is not `x`, so neither the prefix `0x` nor the prefix `\x`. -/
theorem hexEncode_plain (X : List Byte) (hX : X ≠ []) :
    ¬ (hexEncodeToString X).length < 2 ∧ (hexEncodeToString X).take 2 ≠ goStr "0x" ∧
      (hexEncodeToString X).take 2 ≠ goStr "\\x" := by
  cases X with
  | nil => exact absurd rfl hX
  | cons v rest =>
    have hv := v.isLt
    have h2 : v.val % 16 < 16 := by omega
    have hx := hextable_ne_x _ h2
    simp only [List.getD_eq_getElem?_getD] at hx
    simp [hexEncodeToString, goStr_0x, goStr_backslash_x, hx]

/-- The decode chain on text that base64 does not decode, has two bytes or more
and neither prefix: it is hex-decoded as it stands. -/
theorem parseHex_of_base64 (s t : Str) (hb : base64DecodeString s = some t)
    (hlen : ¬ t.length < 2) (h0 : t.take 2 ≠ goStr "0x") (h1 : t.take 2 ≠ goStr "\\x") :
    parseHex [s] = .ret (hexDecodeString t) := by
  simp [parseHex, stringsJoin, hb, hlen, h0, h1]

/-! ## Hex text in front of the base64 step -/

theorem quantumBytes_length (dbuf : List Nat) :
    (quantumBytes dbuf).length = min 3 (dbuf.length - 1) := by
  simp only [quantumBytes, List.length_take, List.length_cons, List.length_nil]
  omega

/-- On text made of alphabet characters only, the base64 decoder fails unless
the number of characters is a multiple of four, and then it yields three bytes
for every four characters. -/
theorem base64Decode_alphabet (s : Str) :
    ∀ dbuf : List Nat, (∀ c ∈ s, ∃ v, decodeMap c = some v) → dbuf.length ≤ 3 →
      ((dbuf.length + s.length) % 4 ≠ 0 → base64Decode s dbuf = none) ∧
      ((dbuf.length + s.length) % 4 = 0 →
        ∃ t, base64Decode s dbuf = some t ∧ t.length = 3 * ((dbuf.length + s.length) / 4)) := by
  induction s with
  | nil =>
    intro dbuf _ hd
    simp only [List.length_nil, Nat.add_zero, base64Decode]
    constructor
    · intro h
      have : dbuf.length ≠ 0 := by omega
      simp [this]
    · intro h
      have : dbuf.length = 0 := by omega
      simp [this]
  | cons c rest ih =>
    intro dbuf halpha hd
    obtain ⟨out, hout⟩ := halpha c (List.mem_cons_self _ _)
    have hrest : ∀ c ∈ rest, ∃ v, decodeMap c = some v :=
      fun x hx => halpha x (List.mem_cons_of_mem _ hx)
    simp only [base64Decode, hout, List.length_cons]
    by_cases h3 : dbuf.length = 3
    · obtain ⟨ihn, ihs⟩ := ih [] hrest (by simp)
      simp only [h3, if_true, List.length_nil, Nat.zero_add] at ihn ihs ⊢
      constructor
      · intro h
        rw [ihn (by omega)]
        rfl
      · intro h
        obtain ⟨t, ht, hlen⟩ := ihs (by omega)
        refine ⟨_, by rw [ht]; rfl, ?_⟩
        simp only [List.length_append, quantumBytes_length, List.length_cons, List.length_nil,
          h3, hlen]
        omega
    · obtain ⟨ihn, ihs⟩ := ih (dbuf ++ [out]) hrest (by simp; omega)
      simp only [h3, if_false]
      simp only [List.length_append, List.length_cons, List.length_nil] at ihn ihs
      constructor
      · intro h
        exact ihn (by omega)
      · intro h
        obtain ⟨t, ht, hlen⟩ := ihs (by omega)
        exact ⟨t, ht, by rw [hlen]; congr 2; omega⟩

theorem decodeMap_hextable_isSome :
    ∀ n, n < 16 → (decodeMap (hextable.getD n 0)).isSome = true := by
  decide

theorem decodeMap_hextable (n : Nat) (h : n < 16) :
    ∃ v, decodeMap (hextable.getD n 0) = some v :=
  Option.isSome_iff_exists.mp (decodeMap_hextable_isSome n h)

/-- Hex digits are characters of the base64 alphabet. -/
theorem hexEncode_alphabet (X : List Byte) :
    ∀ c ∈ hexEncodeToString X, ∃ v, decodeMap c = some v := by
  induction X with
  | nil => intro c hc; simp [hexEncodeToString] at hc
  | cons v rest ih =>
    intro c hc
    have hv := v.isLt
    simp only [hexEncodeToString, List.mem_cons] at hc
    rcases hc with h | h | h
    · subst h; exact decodeMap_hextable _ (by omega)
    · subst h; exact decodeMap_hextable _ (by omega)
    · exact ih c h

theorem hexEncode_length (X : List Byte) : (hexEncodeToString X).length = 2 * X.length := by
  induction X with
  | nil => rfl
  | cons v rest ih => simp only [hexEncodeToString, List.length_cons, ih]; omega

theorem hexDecode_length (s : Str) :
    ∀ bs, hexDecodeString s = .ok bs → 2 * bs.length = s.length := by
  induction s using hexDecodeString.induct with
  | case1 => intro bs h; simp [hexDecodeString] at h; subst h; rfl
  | case2 p h1 => intro bs h; simp [hexDecodeString, h1] at h
  | case3 p x h1 => intro bs h; simp [hexDecodeString, h1] at h
  | case4 p q rest h1 => intro bs h; simp [hexDecodeString, h1] at h
  | case5 p q rest a h1 h2 => intro bs h; simp [hexDecodeString, h1, h2] at h
  | case6 p q rest a h1 b h2 bs0 h3 ih =>
    intro bs h
    simp [hexDecodeString, h1, h2, h3] at h
    subst h
    have := ih bs0 h3
    simp only [List.length_cons]
    omega
  | case7 p q rest a h1 b h2 e h3 ih => intro bs h; simp [hexDecodeString, h1, h2, h3] at h

theorem stringsReplaceAux_length (old : Str) (s : Str) :
    ∀ k, (stringsReplaceAux old [] k s).length ≤ s.length := by
  induction s with
  | nil => intro k; simp [stringsReplaceAux]
  | cons c cs ih =>
    intro k
    cases k with
    | zero =>
      simp only [stringsReplaceAux]
      split
      · have := ih (old.length - 1)
        simp only [List.nil_append, List.length_cons]
        omega
      · have := ih 0
        simp only [List.length_cons]
        omega
    | succ k =>
      have := ih k
      simp only [stringsReplaceAux, List.length_cons]
      omega

theorem stripMarker_length (marker h : Str) : (stripMarker marker h).length ≤ h.length := by
  have h1 : (stringsReplace h marker []).length ≤ h.length := stringsReplaceAux_length marker h 0
  have hcomma : ∀ x : Str,
      (if stringsContains x (goStr ",") then stringsReplace x (goStr ",") [] else x).length
        ≤ x.length := by
    intro x
    split
    · exact stringsReplaceAux_length _ x 0
    · exact le_refl _
  have hspace : ∀ x : Str,
      (if stringsContains x (goStr " ") then stringsReplace x (goStr " ") [] else x).length
        ≤ x.length := by
    intro x
    split
    · exact stringsReplaceAux_length _ x 0
    · exact le_refl _
  unfold stripMarker
  exact le_trans (hspace _) (le_trans (hcomma _) h1)

/-- The decode chain `parseHex`, written with `chainText` and `stripMarker`. -/
theorem parseHex_eq (str : List Str) :
    parseHex str =
      if (chainText str).length < 2 then .panic
      else if (if (chainText str).take 2 = goStr "0x"
                then stripMarker (goStr "0x") (chainText str) else chainText str).length < 2
      then .panic
      else .ret (hexDecodeString
        (if (if (chainText str).take 2 = goStr "0x"
              then stripMarker (goStr "0x") (chainText str) else chainText str).take 2
              = goStr "\\x"
         then stripMarker (goStr "\\x")
           (if (chainText str).take 2 = goStr "0x"
             then stripMarker (goStr "0x") (chainText str) else chainText str)
         else (if (chainText str).take 2 = goStr "0x"
             then stripMarker (goStr "0x") (chainText str) else chainText str))) := by
  rfl

/-- The shape of every run of `parseHex`: a panic, or the hex decoding of a text
no longer than the text the prefix steps started from. -/
theorem parseHex_shape (str : List Str) :
    parseHex str = .panic ∨
      ∃ u, u.length ≤ (chainText str).length ∧ parseHex str = .ret (hexDecodeString u) := by
  have l0 := stripMarker_length (goStr "0x") (chainText str)
  have l1 := stripMarker_length (goStr "\\x") (chainText str)
  have l2 := stripMarker_length (goStr "\\x") (stripMarker (goStr "0x") (chainText str))
  rw [parseHex_eq]
  by_cases hl : (chainText str).length < 2
  · exact Or.inl (by simp only [hl, if_true])
  · by_cases h0 : (chainText str).take 2 = goStr "0x"
    · by_cases hl2 : (stripMarker (goStr "0x") (chainText str)).length < 2
      · exact Or.inl (by simp only [hl, h0, hl2, if_true, if_false])
      · by_cases h1 : (stripMarker (goStr "0x") (chainText str)).take 2 = goStr "\\x"
        · exact Or.inr ⟨_, le_trans l2 l0, by simp only [hl, h0, hl2, h1, if_true, if_false]⟩
        · exact Or.inr ⟨_, l0, by simp only [hl, h0, hl2, h1, if_true, if_false]⟩
    · by_cases h1 : (chainText str).take 2 = goStr "\\x"
      · exact Or.inr ⟨_, l1, by
          simp only [h0, if_false]
          simp only [hl, h1, if_true, if_false]⟩
      · exact Or.inr ⟨_, le_refl _, by
          simp only [h0, if_false]
          simp only [hl, h1, if_false]⟩

/-- The decode chain on text that base64 rejects, of two bytes or more and with
neither prefix: it is hex-decoded as it stands. -/
theorem parseHex_of_not_base64 (s : Str) (hb : base64DecodeString s = none)
    (hlen : ¬ s.length < 2) (h0 : s.take 2 ≠ goStr "0x") (h1 : s.take 2 ≠ goStr "\\x") :
    parseHex [s] = .ret (hexDecodeString s) := by
  simp [parseHex, stringsJoin, hb, hlen, h0, h1]

/-- The round trip holds for byte sequences of odd length: their hex text is
not valid base64. -/
theorem parseHex_hexEncode_odd (X : List Byte) (hodd : X.length % 2 = 1) :
    parseHex [hexEncodeToString X] = .ret (.ok X) := by
  have hX : X ≠ [] := by intro h; subst h; simp at hodd
  obtain ⟨hlen, h0, h1⟩ := hexEncode_plain X hX
  have hnone : base64DecodeString (hexEncodeToString X) = none := by
    apply (base64Decode_alphabet _ [] (hexEncode_alphabet X) (by simp)).1
    simp only [List.length_nil, Nat.zero_add, hexEncode_length]
    omega
  rw [parseHex_of_not_base64 _ hnone hlen h0 h1, hexDecode_encode]

/-- The round trip fails for every byte sequence of even length: its hex text is
valid base64 and is replaced by its base64 decoding, which is shorter than the
hex text of any sequence as long as `X`. -/
theorem parseHex_hexEncode_even (X : List Byte) (heven : X.length % 2 = 0) :
    parseHex [hexEncodeToString X] ≠ .ret (.ok X) := by
  intro hok
  by_cases hX : X = []
  · -- the empty sequence: its hex text is empty and the first slice panics
    subst hX
    revert hok
    decide
  · obtain ⟨t, ht, htlen⟩ :=
      (base64Decode_alphabet _ [] (hexEncode_alphabet X) (by simp)).2 (by
        simp only [List.length_nil, Nat.zero_add, hexEncode_length]
        omega)
    simp only [List.length_nil, Nat.zero_add, hexEncode_length] at htlen
    have hchain : chainText [hexEncodeToString X] = t := by
      simp only [chainText, stringsJoin, List.flatten, List.append_nil]
      rw [show base64DecodeString (hexEncodeToString X) = some t from ht]
    rcases parseHex_shape [hexEncodeToString X] with hp | ⟨u, hu, hp⟩
    · rw [hp] at hok
      cases hok
    · rw [hp] at hok
      rw [hchain] at hu
      have hdec : hexDecodeString u = .ok X := Outcome.ret.inj hok
      have h2 := hexDecode_length u X hdec
      have hX0 : X.length = 0 := by omega
      exact hX (List.length_eq_zero.mp hX0)

/-! ## The decode chain: claims C1 to C6 -/

/-- Claim C1. The round trip through `parseHex` fails for the two-byte sequence
`90 90`: its hex encoding `9090` is valid base64, is decoded as base64 to the
bytes `F7 4F 74`, and hex-decoding those ends in an invalid-byte error. -/
theorem parseHex_hexEncode_9090 :
    hexEncodeToString [0x90, 0x90] = goStr "9090" ∧
    base64DecodeString (hexEncodeToString [0x90, 0x90]) = some [0xF7, 0x4F, 0x74] ∧
    parseHex [hexEncodeToString [0x90, 0x90]] = .ret (.error (.invalidByte 0xF7)) := by
  decide

/-- Claim C2. Of the three literal inputs, `0x90,0x90` and `\x90\x90` decode to
the two bytes `90 90`, and `9090` does not: `parseHex` returns an invalid-byte
error for it. -/
theorem parseHex_three_literals :
    parseHex [goStr "0x90,0x90"] = .ret (.ok [0x90, 0x90]) ∧
    parseHex [goStr "\\x90\\x90"] = .ret (.ok [0x90, 0x90]) ∧
    parseHex [goStr "9090"] = .ret (.error (.invalidByte 0xF7)) := by
  decide

/-- Claim C3. `parseHex` ends in a run-time panic on the one-character token
`a`, on the empty string, on the bare prefix `0x` and on base64 that decodes to
one byte (`QQ==`); the bare prefix `\x` decodes to no bytes. -/
theorem parseHex_panics_on_short_text :
    parseHex [goStr "a"] = .panic ∧ parseHex [goStr ""] = .panic ∧
    parseHex [goStr "0x"] = .panic ∧ parseHex [goStr "QQ=="] = .panic ∧
    parseHex [goStr "\\x"] = .ret (.ok []) := by
  decide

/-- The file fallback where `parseHex` returns: an unreadable file gives the
read error, a readable one gives the decoded bytes when the chain succeeds and
the file's own bytes when hex decoding fails. -/
theorem parseShellcodeFile_of_returns (env : Env) (filePath : Str) :
    (env.readFile filePath = none → parseShellcodeFile env filePath = .ret none) ∧
    (∀ b h, env.readFile filePath = some b → parseHex [b] = .ret (.ok h) →
      parseShellcodeFile env filePath = .ret (some h)) ∧
    (∀ b e, env.readFile filePath = some b → parseHex [b] = .ret (.error e) →
      parseShellcodeFile env filePath = .ret (some b)) ∧
    (∀ b, env.readFile filePath = some b → parseHex [b] = .panic →
      parseShellcodeFile env filePath = .panic) := by
  unfold parseShellcodeFile
  refine ⟨?_, ?_, ?_, ?_⟩
  · intro h; simp only [h]
  · intro b h hb hp; simp only [hb, hp]
  · intro b e hb hp; simp only [hb, hp]
  · intro b hb hp; simp only [hb, hp]

/-- Claim C4. On a readable file with no content `parseShellcodeFile` does not
return: the call of `parseHex` on the empty text panics. -/
theorem parseShellcodeFile_empty_file :
    exampleEnv.readFile (goStr "/tmp/empty") = some [] ∧
    parseShellcodeFile exampleEnv (goStr "/tmp/empty") = .panic := by
  decide

/-- Claim C5. For every non-empty byte sequence `X`, `parseHex` applied to the
single token `base64(hex(X))` returns exactly `X`, with no error. -/
theorem parseHex_base64_of_hex (X : List Byte) (hX : X ≠ []) :
    parseHex [base64EncodeToString (hexEncodeToString X)] = .ret (.ok X) := by
  obtain ⟨hlen, h0, h1⟩ := hexEncode_plain X hX
  rw [parseHex_of_base64 _ (hexEncodeToString X) (base64Decode_encode _) hlen h0 h1,
    hexDecode_encode]

/-- Witness of claim C5 at the bytes `90 c3`. -/
theorem parseHex_base64_of_hex_witness :
    ([0x90, 0xc3] : List Byte) ≠ [] ∧
    parseHex [base64EncodeToString (hexEncodeToString [0x90, 0xc3])] = .ret (.ok [0x90, 0xc3]) :=
  ⟨by decide, parseHex_base64_of_hex [0x90, 0xc3] (by decide)⟩

/-- Claim C6, as stated, fails: the text `0x\x90` does not end in an error, it
decodes to the single byte `90`. -/
theorem parseHex_0x_backslash_x_90 :
    parseHex [goStr "0x\\x90"] = .ret (.ok [0x90]) ∧
    ¬ ∃ e, parseHex [goStr "0x\\x90"] = .ret (.error e) := by
  have h : parseHex [goStr "0x\\x90"] = .ret (.ok [0x90]) := by decide
  refine ⟨h, ?_⟩
  rintro ⟨e, he⟩
  rw [h] at he
  cases he

/-! ## Job submission: claims C7 to C10 -/

theorem addJobAndReport_jobs (env : Env) (j : Job) : (addJobAndReport env j).jobs = [j] := rfl

/-- The second switch submits at most one job; it is a shellcode job for the
selected agent whose arguments follow the method. -/
theorem submitShellcode_jobs (env : Env) (shellAgent : UUID) (cmd : List Str) (b64 : Str)
    (j : Job) (hj : j ∈ (submitShellcode env shellAgent cmd b64).jobs) :
    (submitShellcode env shellAgent cmd b64).jobs = [j] ∧ j.agent = shellAgent ∧
    j.jobType = goStr "shellcode" ∧
    ((env.toLower (cmd.getD 1 []) = goStr "self" ∧ j.args = [goStr "self", b64]) ∨
     (∃ m, m ∈ [goStr "remote", goStr "rtlcreateuserthread", goStr "userapc"] ∧
        env.toLower (cmd.getD 1 []) = m ∧ j.args = [m, cmd.getD 2 [], b64])) := by
  unfold submitShellcode at hj ⊢
  simp only at hj ⊢
  split_ifs at hj ⊢ with h1 h2 h3 h4
  · simp only [addJobAndReport_jobs, List.mem_singleton] at hj ⊢
    subst hj
    exact ⟨rfl, rfl, rfl, Or.inl ⟨h1, rfl⟩⟩
  · simp only [addJobAndReport_jobs, List.mem_singleton] at hj ⊢
    subst hj
    exact ⟨rfl, rfl, rfl, Or.inr ⟨_, by simp, h2, rfl⟩⟩
  · simp only [addJobAndReport_jobs, List.mem_singleton] at hj ⊢
    subst hj
    exact ⟨rfl, rfl, rfl, Or.inr ⟨_, by simp, h3, rfl⟩⟩
  · simp only [addJobAndReport_jobs, List.mem_singleton] at hj ⊢
    subst hj
    exact ⟨rfl, rfl, rfl, Or.inr ⟨_, by simp, h4, rfl⟩⟩
  · simp at hj

/-- The first switch: a payload position is 2 for method self and 3, with a
fourth field present, for the three other methods. -/
theorem payloadPosition_pos (env : Env) (cmd : List Str)
    (h : 0 < (payloadPosition env cmd).1) :
    (payloadPosition env cmd).2 = [] ∧
    ((env.toLower (cmd.getD 1 []) = goStr "self" ∧ (payloadPosition env cmd).1 = 2) ∨
     (env.toLower (cmd.getD 1 []) ≠ goStr "self" ∧ 3 < cmd.length ∧
        (payloadPosition env cmd).1 = 3)) := by
  unfold payloadPosition at h ⊢
  simp only at h ⊢
  split_ifs at h ⊢ <;> simp_all

/-- The second switch for method self. -/
theorem submitShellcode_self (env : Env) (shellAgent : UUID) (cmd : List Str) (b64 : Str)
    (hs : env.toLower (cmd.getD 1 []) = goStr "self") :
    (submitShellcode env shellAgent cmd b64).jobs =
      [⟨shellAgent, goStr "shellcode", [goStr "self", b64]⟩] := by
  simp only [submitShellcode, hs, if_true, addJobAndReport_jobs]

/-- The second switch for the methods remote, rtlcreateuserthread and userapc. -/
theorem submitShellcode_other (env : Env) (shellAgent : UUID) (cmd : List Str) (b64 m : Str)
    (hmem : m ∈ [goStr "remote", goStr "rtlcreateuserthread", goStr "userapc"])
    (hm : env.toLower (cmd.getD 1 []) = m) :
    (submitShellcode env shellAgent cmd b64).jobs =
      [⟨shellAgent, goStr "shellcode", [m, cmd.getD 2 [], b64]⟩] := by
  have d1 : goStr "remote" ≠ goStr "self" := by decide
  have d2 : goStr "rtlcreateuserthread" ≠ goStr "self" := by decide
  have d3 : goStr "rtlcreateuserthread" ≠ goStr "remote" := by decide
  have d4 : goStr "userapc" ≠ goStr "self" := by decide
  have d5 : goStr "userapc" ≠ goStr "remote" := by decide
  have d6 : goStr "userapc" ≠ goStr "rtlcreateuserthread" := by decide
  simp only [List.mem_cons, List.mem_singleton, List.not_mem_nil, or_false] at hmem
  rcases hmem with h | h | h <;> subst h <;>
    simp only [submitShellcode, hm, d1, d2, d3, d4, d5, d6, if_true, if_false,
      addJobAndReport_jobs]

/-- The first switch for method self: the payload starts at `cmd[2]`. -/
theorem payloadPosition_self (env : Env) (cmd : List Str)
    (hs : env.toLower (cmd.getD 1 []) = goStr "self") : payloadPosition env cmd = (2, []) := by
  simp only [payloadPosition, hs, if_true]

/-- The first switch for the three other methods, a fourth field being
present: the payload starts at `cmd[3]`. -/
theorem payloadPosition_other (env : Env) (cmd : List Str) (m : Str)
    (hmem : m ∈ [goStr "remote", goStr "rtlcreateuserthread", goStr "userapc"])
    (hm : env.toLower (cmd.getD 1 []) = m) (hlen : 3 < cmd.length) :
    payloadPosition env cmd = (3, []) := by
  have d1 : goStr "remote" ≠ goStr "self" := by decide
  have d2 : goStr "rtlcreateuserthread" ≠ goStr "self" := by decide
  have d3 : goStr "rtlcreateuserthread" ≠ goStr "remote" := by decide
  have d4 : goStr "userapc" ≠ goStr "self" := by decide
  have d5 : goStr "userapc" ≠ goStr "remote" := by decide
  have d6 : goStr "userapc" ≠ goStr "rtlcreateuserthread" := by decide
  simp only [List.mem_cons, List.mem_singleton, List.not_mem_nil, or_false] at hmem
  rcases hmem with h | h | h <;> subst h <;>
    simp only [payloadPosition, hm, d1, d2, d3, d4, d5, d6, if_true, if_false, gt_iff_lt, hlen]

/-- Once the payload position `i` is known and positive, a payload in the
sense of `IsPayload` makes the command return with the jobs of the second
switch. -/
theorem shellExecuteShellcode_of_payload (env : Env) (shellAgent : UUID) (cmd : List Str)
    (i : Nat) (payload : List Byte) (hlen : 2 < cmd.length)
    (hpos : payloadPosition env cmd = (i, [])) (hi : 0 < i)
    (hp : IsPayload env cmd i payload) :
    ∃ e, shellExecuteShellcode env shellAgent cmd = .ret e ∧
      e.jobs = (submitShellcode env shellAgent cmd (base64EncodeToString payload)).jobs := by
  unfold shellExecuteShellcode
  simp only [gt_iff_lt, hlen, if_true, hpos, hi]
  rcases hp with ⟨hstat, hparse⟩ | ⟨hstat, hparse⟩
  · simp only [hstat, hparse]
    exact ⟨_, rfl, rfl⟩
  · simp only [hstat, hparse]
    exact ⟨_, rfl, rfl⟩

/-- Every job of the shape `IsShellcodeJob` is submitted: for a command of
three fields or more the command returns and submits exactly that job. -/
theorem shellExecuteShellcode_submits (env : Env) (shellAgent : UUID) (cmd : List Str)
    (j : Job) (hlen : 2 < cmd.length) (hjob : IsShellcodeJob env shellAgent cmd j) :
    ∃ e, shellExecuteShellcode env shellAgent cmd = .ret e ∧ e.jobs = [j] := by
  obtain ⟨hagent, htype, hshape⟩ := hjob
  rcases hshape with ⟨hs, payload, hp, hargs⟩ | ⟨m, hmem, hm, h3, payload, hp, hargs⟩
  · obtain ⟨e, he, hjobs⟩ := shellExecuteShellcode_of_payload env shellAgent cmd 2 payload hlen
      (payloadPosition_self env cmd hs) (by decide) hp
    refine ⟨e, he, ?_⟩
    rw [hjobs, submitShellcode_self env shellAgent cmd _ hs]
    cases j
    simp_all
  · obtain ⟨e, he, hjobs⟩ := shellExecuteShellcode_of_payload env shellAgent cmd 3 payload hlen
      (payloadPosition_other env cmd m hmem hm h3) (by decide) hp
    refine ⟨e, he, ?_⟩
    rw [hjobs, submitShellcode_other env shellAgent cmd _ m hmem hm]
    cases j
    simp_all

/-- Claim C7. Whenever an `execute-shellcode` command submits a job, it submits
exactly that one job, for the selected agent, of type `shellcode`, with the
arguments `["self", p]` for method self and `[m, cmd[2], p]` for `m` one of
remote, rtlcreateuserthread, userapc (the lower-cased method), where `p` is the
base64 encoding of the bytes `parseHex` returned on the payload tokens or
`parseShellcodeFile` returned on the payload path. -/
theorem shellExecuteShellcode_job_shape (env : Env) (shellAgent : UUID) (cmd : List Str)
    (e : Effects) (j : Job) (hrun : shellExecuteShellcode env shellAgent cmd = .ret e)
    (hj : j ∈ e.jobs) :
    e.jobs = [j] ∧ IsShellcodeJob env shellAgent cmd j := by
  unfold shellExecuteShellcode at hrun
  split at hrun
  case isFalse => cases hrun; simp at hj
  case isTrue hlen =>
    by_cases hi : 0 < (payloadPosition env cmd).1
    case neg =>
      simp only [gt_iff_lt, hi, if_false] at hrun
      cases hrun
      simp at hj
    case pos =>
      obtain ⟨-, hpos⟩ := payloadPosition_pos env cmd hi
      simp only [gt_iff_lt, hi, if_true] at hrun
      -- the shape of the job, once the payload is known
      have key : ∀ payload, IsPayload env cmd (payloadPosition env cmd).1 payload →
          j ∈ (submitShellcode env shellAgent cmd (base64EncodeToString payload)).jobs →
          (submitShellcode env shellAgent cmd (base64EncodeToString payload)).jobs = [j] ∧
            IsShellcodeJob env shellAgent cmd j := by
        intro payload hp hmem
        obtain ⟨h1, h2, h3, h4⟩ := submitShellcode_jobs env shellAgent cmd _ j hmem
        refine ⟨h1, h2, h3, ?_⟩
        rcases hpos with ⟨hs, h2i⟩ | ⟨hns, h3len, h3i⟩
        · rcases h4 with ⟨_, hargs⟩ | ⟨m, hmem, hm, _⟩
          · exact Or.inl ⟨hs, payload, h2i ▸ hp, hargs⟩
          · exfalso
            have hself : m = goStr "self" := hm.symm.trans hs
            subst hself
            revert hmem
            decide
        · rcases h4 with ⟨hs, _⟩ | ⟨m, hmem, hm, hargs⟩
          · exact absurd hs hns
          · exact Or.inr ⟨m, hmem, hm, h3len, payload, h3i ▸ hp, hargs⟩
      split at hrun
      · -- no file at `cmd[i]`: the tokens are decoded
        rename_i hstat
        split at hrun
        · cases hrun
        · cases hrun; simp at hj
        · rename_i h hparse
          cases hrun
          exact key h (Or.inl ⟨hstat, hparse⟩) hj
      · cases hrun; simp at hj
      · rename_i hstat
        split at hrun
        · cases hrun
        · cases hrun; simp at hj
        · rename_i b hparse
          cases hrun
          exact key b (Or.inr ⟨hstat, hparse⟩) hj

/-- Witness of claim C7: `execute-shellcode REMOTE 1234 0x90, 0xc3`. -/
theorem shellExecuteShellcode_job_shape_witness :
    shellExecuteShellcode exampleEnv exampleAgent exampleShellcodeCmd =
        .ret ⟨[Msg.createdJob], [exampleShellcodeJob]⟩ ∧
      exampleShellcodeJob ∈ [exampleShellcodeJob] ∧
      [exampleShellcodeJob] = [exampleShellcodeJob] ∧
      IsShellcodeJob exampleEnv exampleAgent exampleShellcodeCmd exampleShellcodeJob :=
  ⟨by decide, by decide,
    shellExecuteShellcode_job_shape exampleEnv exampleAgent exampleShellcodeCmd
      ⟨[Msg.createdJob], [exampleShellcodeJob]⟩ exampleShellcodeJob (by decide) (by decide)⟩

/-- Claim C9. For every `upload` command: when the first parsed argument, the
local path, fails `os.Stat`, no job is submitted; and a submitted job is the
only one, its arguments are exactly the first parsed argument (the local path,
whose `os.Stat` succeeded) followed by the second (the remote path). -/
theorem shellUpload_local_path_checked (env : Env) (shellAgent : UUID) (cmd : List Str) :
    (∀ argS, env.shellwordsParse (stringsJoinSpace (cmd.drop 1)) = some argS →
      env.stat (argS.getD 0 []) = none → (shellUpload env shellAgent cmd).jobs = []) ∧
    (∀ j, j ∈ (shellUpload env shellAgent cmd).jobs →
      ∃ argS, env.shellwordsParse (stringsJoinSpace (cmd.drop 1)) = some argS ∧
        2 ≤ argS.length ∧ env.stat (argS.getD 0 []) ≠ none ∧
        j.args = [argS.getD 0 [], argS.getD 1 []] ∧
        (shellUpload env shellAgent cmd).jobs = [j]) := by
  unfold shellUpload
  constructor
  · intro argS hparse hstat
    split
    case isFalse => rfl
    case isTrue =>
      simp only [hparse]
      split
      case isFalse => rfl
      case isTrue => simp only [hstat]
  · intro j hj
    split at hj
    case isFalse => simp at hj
    case isTrue hlen =>
      simp only [hlen, if_true]
      simp only at hj
      split at hj
      · simp at hj
      · rename_i argS hparse
        split at hj
        case isFalse => simp at hj
        case isTrue hargs =>
          split at hj
          · simp at hj
          · rename_i d hstat
            simp only [addJobAndReport_jobs, List.mem_singleton] at hj
            subst hj
            refine ⟨argS, hparse, hargs, by rw [hstat]; exact Option.some_ne_none d, ?_, ?_⟩
            · match argS, hargs with
              | a :: b :: rest, _ => simp
            · simp only [hparse, hargs, if_true, hstat, addJobAndReport_jobs]

/-- Witness of claim C9: `upload /tmp/a /x/b` on a host where `/tmp/a` exists. -/
theorem shellUpload_local_path_checked_witness :
    exampleUploadJob ∈ (shellUpload exampleEnv exampleAgent exampleUpload2).jobs ∧
    ∃ argS, exampleEnv.shellwordsParse (stringsJoinSpace (exampleUpload2.drop 1)) = some argS ∧
      2 ≤ argS.length ∧ exampleEnv.stat (argS.getD 0 []) ≠ none ∧
      exampleUploadJob.args = [argS.getD 0 [], argS.getD 1 []] ∧
      (shellUpload exampleEnv exampleAgent exampleUpload2).jobs = [exampleUploadJob] :=
  ⟨by decide,
    (shellUpload_local_path_checked exampleEnv exampleAgent exampleUpload2).2 exampleUploadJob
      (by decide)⟩

/-- Claim C10. In the module menu, `run` submits a job exactly when the
module's `Run` returns no error: nothing is submitted when `Run` fails, and
when it succeeds exactly one job is submitted, for the module's agent, with
exactly the argument list `Run` returned. -/
theorem shellModuleRun_submits (env : Env) (shellModule : Module) :
    ((shellModuleRun env shellModule).jobs ≠ [] ↔ shellModule.Run ≠ none) ∧
    (shellModule.Run = none → (shellModuleRun env shellModule).jobs = []) ∧
    (∀ r, shellModule.Run = some r →
      ∃ j, (shellModuleRun env shellModule).jobs = [j] ∧ j.agent = shellModule.Agent ∧
        j.args = r) := by
  unfold shellModuleRun
  cases hr : shellModule.Run with
  | none => simp
  | some r => simp [addJobAndReport_jobs]

/-- Witness of claim C10: a module whose `Run` returns `["whoami"]`. -/
theorem shellModuleRun_submits_witness :
    exampleModule.Run = some [goStr "whoami"] ∧
    ∃ j, (shellModuleRun exampleEnv exampleModule).jobs = [j] ∧ j.agent = exampleModule.Agent ∧
      j.args = [goStr "whoami"] :=
  ⟨rfl, (shellModuleRun_submits exampleEnv exampleModule).2.2 [goStr "whoami"] rfl⟩

/-! ## Commands that submit nothing: claim C11 -/

/-- The first switch for a method that is none of the four: no payload position,
and the warning is printed. -/
theorem payloadPosition_invalid (env : Env) (cmd : List Str)
    (hm : env.toLower (cmd.getD 1 []) ∉
      [goStr "self", goStr "remote", goStr "rtlcreateuserthread", goStr "userapc"]) :
    payloadPosition env cmd = (0, [Msg.notEnoughArguments]) := by
  simp only [List.mem_cons, List.mem_singleton, List.not_mem_nil, or_false, not_or] at hm
  obtain ⟨h1, h2, h3, h4⟩ := hm
  simp only [payloadPosition, h1, h2, h3, h4, if_false]

/-- Claim C11. An `execute-shellcode` command returns and submits no job in each
of these cases: the payload is no existing file and `parseHex` returns an error
on the payload tokens; the payload path is a directory; the payload is a file
and `parseShellcodeFile` returns an error; the lower-cased method is none of
self, remote, rtlcreateuserthread, userapc. -/
theorem shellExecuteShellcode_no_job (env : Env) (shellAgent : UUID) (cmd : List Str) :
    (∀ i err, 2 < cmd.length → payloadPosition env cmd = (i, []) → 0 < i →
      env.stat (cmd.getD i []) = none → parseHex (cmd.drop i) = .ret (.error err) →
      shellExecuteShellcode env shellAgent cmd = .ret ⟨[Msg.errorText], []⟩) ∧
    (∀ i, 2 < cmd.length → payloadPosition env cmd = (i, []) → 0 < i →
      env.stat (cmd.getD i []) = some true →
      shellExecuteShellcode env shellAgent cmd = .ret ⟨[Msg.directoryProvided], []⟩) ∧
    (∀ i, 2 < cmd.length → payloadPosition env cmd = (i, []) → 0 < i →
      env.stat (cmd.getD i []) = some false →
      parseShellcodeFile env (cmd.getD i []) = .ret none →
      shellExecuteShellcode env shellAgent cmd =
        .ret ⟨[Msg.shellcodeFileError, Msg.errorText], []⟩) ∧
    (env.toLower (cmd.getD 1 []) ∉
        [goStr "self", goStr "remote", goStr "rtlcreateuserthread", goStr "userapc"] →
      ∃ e, shellExecuteShellcode env shellAgent cmd = .ret e ∧ e.jobs = []) := by
  refine ⟨?_, ?_, ?_, ?_⟩
  · intro i err hlen hpos hi hstat hparse
    unfold shellExecuteShellcode
    simp only [gt_iff_lt, hlen, if_true, hpos, hi, hstat, hparse, List.nil_append]
  · intro i hlen hpos hi hstat
    unfold shellExecuteShellcode
    simp only [gt_iff_lt, hlen, if_true, hpos, hi, hstat, List.nil_append]
  · intro i hlen hpos hi hstat hparse
    unfold shellExecuteShellcode
    simp only [gt_iff_lt, hlen, if_true, hpos, hi, hstat, hparse, List.nil_append]
  · intro hm
    have hpos := payloadPosition_invalid env cmd hm
    unfold shellExecuteShellcode
    by_cases hlen : 2 < cmd.length
    · simp only [gt_iff_lt, hlen, if_true, hpos, Nat.lt_irrefl, if_false]
      exact ⟨_, rfl, rfl⟩
    · simp only [gt_iff_lt, hlen, if_false]
      exact ⟨_, rfl, rfl⟩

/-- Witness of claim C11: `execute-shellcode self zz`, where `zz` is no file and
`parseHex` returns an invalid-byte error. -/
theorem shellExecuteShellcode_no_job_witness :
    2 < exampleBadHexCmd.length ∧ payloadPosition exampleEnv exampleBadHexCmd = (2, []) ∧
    exampleEnv.stat (exampleBadHexCmd.getD 2 []) = none ∧
    parseHex (exampleBadHexCmd.drop 2) = .ret (.error (.invalidByte 122)) ∧
    shellExecuteShellcode exampleEnv exampleAgent exampleBadHexCmd =
      .ret ⟨[Msg.errorText], []⟩ :=
  ⟨by decide, by decide, by decide, by decide,
    (shellExecuteShellcode_no_job exampleEnv exampleAgent exampleBadHexCmd).1 2
      (.invalidByte 122) (by decide) (by decide) (by decide) (by decide) (by decide)⟩

/-! ## The `0x` literal form: claim C12 -/

/-- Replacing a one-byte string by nothing removes that byte everywhere. -/
theorem stringsReplace_single (c : Byte) (s : Str) :
    stringsReplace s [c] [] = s.filter (fun x => x != c) := by
  unfold stringsReplace
  induction s with
  | nil => rfl
  | cons a rest ih =>
    by_cases h : c = a
    · subst h
      simp [stringsReplaceAux, List.isPrefixOf, ih]
    · have h2 : a ≠ c := fun e => h e.symm
      simp [stringsReplaceAux, List.isPrefixOf, ih, h, h2]

theorem filter_of_not_contains (c : Byte) (s : Str) (h : stringsContains s [c] = false) :
    s.filter (fun x => x != c) = s := by
  induction s with
  | nil => rfl
  | cons a rest ih =>
    simp only [stringsContains, List.isPrefixOf, Bool.or_eq_false_iff, Bool.and_eq_false_imp,
      beq_iff_eq] at h
    have hca : c ≠ a := by
      intro e
      have := h.1 e
      simp [List.isPrefixOf] at this
    have hac : a ≠ c := fun e => hca e.symm
    simp [hac, ih h.2]

/-- The separator steps of `parseHex`, `if strings.Contains then strings.Replace`,
remove the separator wherever it stands. -/
theorem strip_separator (c : Byte) (s : Str) :
    (if stringsContains s [c] then stringsReplace s [c] [] else s) =
      s.filter (fun x => x != c) := by
  split
  · exact stringsReplace_single c s
  · rename_i h
    exact (filter_of_not_contains c s (by simpa using h)).symm

theorem goStr_comma : goStr "," = [44] := by decide

theorem goStr_space : goStr " " = [32] := by decide

theorem stripMarker_eq (marker h : Str) :
    stripMarker marker h =
      ((stringsReplace h marker []).filter (fun x => x != 44)).filter (fun x => x != 32) := by
  unfold stripMarker
  simp only [goStr_comma, goStr_space, strip_separator]

theorem hextable_digit : ∀ n, n < 16 →
    hextable.getD n 0 ≠ (120 : Byte) ∧ hextable.getD n 0 ≠ (44 : Byte) ∧
    hextable.getD n 0 ≠ (32 : Byte) ∧ hextable.getD n 0 ≠ (61 : Byte) ∧
    (decodeMap (hextable.getD n 0)).isSome = true := by
  decide

/-- Removing the `0x` markers from the literal form leaves the comma-separated
digits. -/
theorem stringsReplace_render0x (X : List Byte) :
    stringsReplace (render0x X) (goStr "0x") [] = commaHex X := by
  have b48 : byte 48 = 48 := rfl
  have b120 : byte 120 = 120 := rfl
  have b44 : byte 44 = 44 := rfl
  have n1 : ¬ (48 : Byte) = 44 := by decide
  have n2 : ¬ (120 : Byte) = 44 := by decide
  unfold stringsReplace
  rw [goStr_0x]
  induction X using render0x.induct with
  | case1 => rfl
  | case2 v =>
    have hv := v.isLt
    obtain ⟨hx, -, -, -, -⟩ := hextable_digit (v.val % 16) (by omega)
    simp only [List.getD_eq_getElem?_getD] at hx
    have hx2 : ¬ (120 : Byte) = hextable[v.val % 16]?.getD 0 := fun e => hx e.symm
    simp [render0x, commaHex, goStr_0x, hexEncodeToString, stringsReplaceAux, List.isPrefixOf,
      b48, b120, hx2]
  | case3 v w rest ih =>
    have hv := v.isLt
    obtain ⟨hx, -, -, -, -⟩ := hextable_digit (v.val % 16) (by omega)
    simp only [List.getD_eq_getElem?_getD] at hx
    have hx2 : ¬ (120 : Byte) = hextable[v.val % 16]?.getD 0 := fun e => hx e.symm
    simp only [render0x, commaHex, goStr_0x, goStr_comma, hexEncodeToString, List.cons_append,
      List.nil_append, stringsReplaceAux, List.isPrefixOf, List.length_cons, List.length_nil]
    simp [hx2, ih, b48, b120, b44, n1, n2]

theorem hexEncode_filter (c : Byte) (hc : ∀ n, n < 16 → hextable.getD n 0 ≠ c)
    (X : List Byte) : (hexEncodeToString X).filter (fun x => x != c) = hexEncodeToString X := by
  induction X with
  | nil => rfl
  | cons v rest ih =>
    have hv := v.isLt
    have h1 := hc (v.val / 16) (by omega)
    have h2 := hc (v.val % 16) (by omega)
    simp only [hexEncodeToString, List.filter_cons, bne_iff_ne, ne_eq, h1, h2, not_false_eq_true,
      if_true, ih]

/-- Removing the commas from the comma-separated digits leaves the hex text. -/
theorem commaHex_filter_comma (X : List Byte) :
    (commaHex X).filter (fun x => x != 44) = hexEncodeToString X := by
  induction X using commaHex.induct with
  | case1 => rfl
  | case2 v =>
    exact hexEncode_filter 44 (fun n hn => (hextable_digit n hn).2.1) [v]
  | case3 v w rest ih =>
    have h1 := hexEncode_filter 44 (fun n hn => (hextable_digit n hn).2.1) [v]
    have hsplit : hexEncodeToString (v :: w :: rest) =
        hexEncodeToString [v] ++ hexEncodeToString (w :: rest) := by
      simp [hexEncodeToString]
    rw [commaHex, List.filter_append, List.filter_append, h1, ih, goStr_comma, hsplit]
    simp

/-- The `0x` step on the literal form leaves the hex text of the bytes. -/
theorem stripMarker_render0x (X : List Byte) :
    stripMarker (goStr "0x") (render0x X) = hexEncodeToString X := by
  rw [stripMarker_eq, stringsReplace_render0x, commaHex_filter_comma]
  exact hexEncode_filter 32 (fun n hn => (hextable_digit n hn).2.2.1) X

/-- With two bytes or more the literal form holds a comma after its first four
characters, and base64 decoding fails there. -/
theorem base64Decode_render0x (v w : Byte) (rest : List Byte) :
    base64DecodeString (render0x (v :: w :: rest)) = none := by
  have hv := v.isLt
  obtain ⟨-, -, -, -, h1⟩ := hextable_digit (v.val / 16) (by omega)
  obtain ⟨-, -, -, -, h2⟩ := hextable_digit (v.val % 16) (by omega)
  obtain ⟨o1, ho1⟩ := Option.isSome_iff_exists.mp h1
  obtain ⟨o2, ho2⟩ := Option.isSome_iff_exists.mp h2
  have d0 : decodeMap 48 = some 52 := by decide
  have dx : decodeMap 120 = some 49 := by decide
  have dc : decodeMap 44 = none := by decide
  have nc : isNewline 44 = false := by decide
  have pc : (44 : Byte) ≠ padChar := by decide
  have b48 : byte 48 = 48 := rfl
  have b120 : byte 120 = 120 := rfl
  have b44 : byte 44 = 44 := rfl
  simp only [base64DecodeString, render0x, goStr_0x, goStr_comma, hexEncodeToString,
    List.cons_append, List.nil_append, base64Decode, d0, dx, ho1, ho2, dc, nc, pc]
  simp [b48, b120, b44, d0, dx, dc, nc, pc]

/-- The literal form of two bytes or more decodes to the bytes. -/
theorem parseHex_render0x_two (X : List Byte) (h2 : 2 ≤ X.length) :
    parseHex [render0x X] = .ret (.ok X) := by
  match X, h2 with
  | v :: w :: rest, _ =>
    have hX : v :: w :: rest ≠ [] := by simp
    obtain ⟨hlen, -, h1⟩ := hexEncode_plain (v :: w :: rest) hX
    have hchain : chainText [render0x (v :: w :: rest)] = render0x (v :: w :: rest) := by
      simp only [chainText, stringsJoin, List.flatten, List.append_nil,
        base64Decode_render0x v w rest]
    have htake : (render0x (v :: w :: rest)).take 2 = goStr "0x" := by
      simp [render0x, goStr_0x]
    have hl : ¬ (render0x (v :: w :: rest)).length < 2 := by
      simp [render0x, goStr_0x]
    rw [parseHex_eq, hchain]
    simp only [htake, if_true, stripMarker_render0x, hl, hlen, h1, if_false, hexDecode_encode]

set_option maxRecDepth 100000 in
/-- For one byte the form `0xHH` is four characters of the base64 alphabet: it
is decoded as base64 and the hex step then reports the byte `D3`. -/
theorem parseHex_render0x_single :
    ∀ v : Byte, parseHex [render0x [v]] = .ret (.error (.invalidByte 0xD3)) := by
  decide

/-- Claim C12. For the one-byte sequence `90` the literal form is `0x90`, and
`parseHex` does not return the byte: `0x90` is valid base64, is replaced by the
bytes `D3 1F 74`, and the hex step returns an invalid-byte error.  The form
`0x90,0x90` of two bytes decodes to them. -/
theorem parseHex_render0x_90 :
    render0x [0x90] = goStr "0x90" ∧
    base64DecodeString (goStr "0x90") = some [0xD3, 0x1F, 0x74] ∧
    parseHex [render0x [0x90]] = .ret (.error (.invalidByte 0xD3)) ∧
    render0x [0x90, 0x90] = goStr "0x90,0x90" ∧
    parseHex [render0x [0x90, 0x90]] = .ret (.ok [0x90, 0x90]) := by
  decide

/-! ## The agent menu is entered for registered agents only: claim C13 -/

/-- The loop of `menuSetAgent`, entry by entry: the state is left as it is when
no record has the ID, and otherwise the agent is selected and the agent menu
entered. -/
theorem menuSetAgent_foldl (agentID : UUID) (l : List (UUID × AgentRecord)) :
    ∀ st : ShellState,
      ((∀ e ∈ l, e.2.ID ≠ agentID) →
        l.foldl (fun s entry =>
          if agentID = entry.2.ID then
            { s with shellAgent := agentID, shellMenuContext := goStr "agent" }
          else s) st = st) ∧
      ((∃ e ∈ l, e.2.ID = agentID) →
        l.foldl (fun s entry =>
          if agentID = entry.2.ID then
            { s with shellAgent := agentID, shellMenuContext := goStr "agent" }
          else s) st =
          { st with shellAgent := agentID, shellMenuContext := goStr "agent" }) := by
  induction l with
  | nil =>
    intro st
    exact ⟨fun _ => rfl, fun ⟨e, he, _⟩ => absurd he (List.not_mem_nil e)⟩
  | cons a rest ih =>
    intro st
    simp only [List.foldl_cons]
    by_cases ha : agentID = a.2.ID
    · simp only [ha, if_true]
      constructor
      · intro hno
        exact absurd rfl (hno a (List.mem_cons_self _ _))
      · intro _
        by_cases hrest : ∃ e ∈ rest, e.2.ID = a.2.ID
        · have := (ih { st with shellAgent := a.2.ID, shellMenuContext := goStr "agent" }).2
            (ha ▸ hrest)
          rw [ha] at this
          exact this
        · have hno : ∀ e ∈ rest, e.2.ID ≠ agentID := by
            intro e he heq
            exact hrest ⟨e, he, heq.trans ha⟩
          have := (ih { st with shellAgent := a.2.ID, shellMenuContext := goStr "agent" }).1 hno
          rw [ha] at this
          exact this
    · simp only [ha, if_false]
      constructor
      · intro hno
        exact (ih st).1 (fun e he => hno e (List.mem_cons_of_mem _ he))
      · rintro ⟨e, he, heq⟩
        rcases List.mem_cons.mp he with h | h
        · subst h
          exact absurd heq.symm ha
        · exact (ih st).2 ⟨e, h, heq⟩

/-- Source `menuSetAgent` on an identifier that no record of the registry has:
nothing changes. -/
theorem menuSetAgent_unregistered (w : World) (agentID : UUID) (st : ShellState)
    (h : ¬ Registered w agentID) : menuSetAgent w agentID st = st :=
  (menuSetAgent_foldl agentID w.agents st).1 (fun e he heq => h ⟨e, he, heq⟩)

/-- Source `menuSetAgent` on a registered identifier: it is selected and the
agent menu entered. -/
theorem menuSetAgent_registered (w : World) (agentID : UUID) (st : ShellState)
    (h : Registered w agentID) :
    menuSetAgent w agentID st =
      { st with shellAgent := agentID, shellMenuContext := goStr "agent" } :=
  (menuSetAgent_foldl agentID w.agents st).2 h

/-- Source `menuAgent` leaves the state as it is or selects a registered agent
and enters the agent menu. -/
theorem menuAgent_cases (w : World) (cmd : List Str) (st : ShellState) :
    menuAgent w cmd st = st ∨
      ∃ id, Registered w id ∧
        menuAgent w cmd st = { st with shellAgent := id, shellMenuContext := goStr "agent" } := by
  unfold menuAgent
  split_ifs
  · exact Or.inl rfl
  · cases h : w.uuidFromString (cmd.getD 1 []) with
    | none => exact Or.inl rfl
    | some i =>
      by_cases hr : Registered w i
      · exact Or.inr ⟨i, hr, menuSetAgent_registered w i st hr⟩
      · exact Or.inl (menuSetAgent_unregistered w i st hr)
  · exact Or.inl rfl
  · exact Or.inl rfl
  · exact Or.inl rfl

/-- Source `menuSetModule` leaves the state as it is or enters the module menu;
it never writes `shellAgent`. -/
theorem menuSetModule_cases (w : World) (cmd : Str) (st : ShellState) :
    (menuSetModule w cmd st).shellAgent = st.shellAgent ∧
      ((menuSetModule w cmd st).shellMenuContext = st.shellMenuContext ∨
        (menuSetModule w cmd st).shellMenuContext = goStr "module") := by
  unfold menuSetModule
  split_ifs
  · cases w.modulesCreate cmd with
    | none => exact ⟨rfl, Or.inl rfl⟩
    | some m => exact ⟨rfl, Or.inr rfl⟩
  · exact ⟨rfl, Or.inl rfl⟩

theorem menuUse_cases (w : World) (cmd : List Str) (st : ShellState) :
    (menuUse w cmd st).shellAgent = st.shellAgent ∧
      ((menuUse w cmd st).shellMenuContext = st.shellMenuContext ∨
        (menuUse w cmd st).shellMenuContext = goStr "module") := by
  unfold menuUse
  split_ifs
  · exact menuSetModule_cases w _ st
  all_goals exact ⟨rfl, Or.inl rfl⟩

/-- A property of both branches of a conditional holds of the conditional. -/
theorem ite_induction {α : Type} (P : α → Prop) (c : Prop) [Decidable c] (a b : α)
    (ha : P a) (hb : P b) : P (if c then a else b) := by
  split
  · exact ha
  · exact hb

/-- What a command of the main menu can do to the context and the selected
agent: nothing, enter the module menu, or select a registered agent and enter
the agent menu. -/
theorem shellMain_cases (w : World) (st s' : ShellState) (cmd : List Str)
    (h : shellMain w st cmd = some s') :
    (s'.shellAgent = st.shellAgent ∧
      (s'.shellMenuContext = st.shellMenuContext ∨ s'.shellMenuContext = goStr "module")) ∨
    (Registered w s'.shellAgent ∧ s'.shellMenuContext = goStr "agent") := by
  suffices H : (fun r : Option ShellState => ∀ t, r = some t →
      (t.shellAgent = st.shellAgent ∧
        (t.shellMenuContext = st.shellMenuContext ∨ t.shellMenuContext = goStr "module")) ∨
      (Registered w t.shellAgent ∧ t.shellMenuContext = goStr "agent"))
      (shellMain w st cmd) from H s' h
  have hagent : ∀ c t, some (menuAgent w c st) = some t →
      (t.shellAgent = st.shellAgent ∧
        (t.shellMenuContext = st.shellMenuContext ∨ t.shellMenuContext = goStr "module")) ∨
      (Registered w t.shellAgent ∧ t.shellMenuContext = goStr "agent") := by
    intro c t hc
    have hc := Option.some.inj hc
    rcases menuAgent_cases w c st with h1 | ⟨id, hr, h1⟩
    · rw [h1] at hc
      subst hc
      exact Or.inl ⟨rfl, Or.inl rfl⟩
    · rw [h1] at hc
      subst hc
      exact Or.inr ⟨hr, rfl⟩
  have hsame : ∀ t, some st = some t →
      (t.shellAgent = st.shellAgent ∧
        (t.shellMenuContext = st.shellMenuContext ∨ t.shellMenuContext = goStr "module")) ∨
      (Registered w t.shellAgent ∧ t.shellMenuContext = goStr "agent") := by
    intro t hc
    have hc := Option.some.inj hc
    subst hc
    exact Or.inl ⟨rfl, Or.inl rfl⟩
  unfold shellMain
  repeat' apply ite_induction (fun r : Option ShellState => ∀ t, r = some t →
      (t.shellAgent = st.shellAgent ∧
        (t.shellMenuContext = st.shellMenuContext ∨ t.shellMenuContext = goStr "module")) ∨
      (Registered w t.shellAgent ∧ t.shellMenuContext = goStr "agent"))
  all_goals first
    | exact hsame
    | exact hagent _
    | (intro t ht; exact Option.noConfusion ht)
    | (intro t ht
       have hc := Option.some.inj ht
       subst hc
       exact Or.inl (menuUse_cases w _ st))

/-- A command of the module menu never writes `shellAgent` and never enters the
agent menu. -/
theorem shellModuleMenu_cases (w : World) (st s' : ShellState) (cmd : List Str)
    (h : shellModuleMenu w st cmd = some s') :
    s'.shellAgent = st.shellAgent ∧
      (s'.shellMenuContext = st.shellMenuContext ∨ s'.shellMenuContext = goStr "module" ∨
        s'.shellMenuContext = goStr "main") := by
  suffices H : (fun r : Option ShellState => ∀ t, r = some t →
      t.shellAgent = st.shellAgent ∧
        (t.shellMenuContext = st.shellMenuContext ∨ t.shellMenuContext = goStr "module" ∨
          t.shellMenuContext = goStr "main")) (shellModuleMenu w st cmd) from H s' h
  unfold shellModuleMenu
  repeat' apply ite_induction (fun r : Option ShellState => ∀ t, r = some t →
      t.shellAgent = st.shellAgent ∧
        (t.shellMenuContext = st.shellMenuContext ∨ t.shellMenuContext = goStr "module" ∨
          t.shellMenuContext = goStr "main"))
  all_goals first
    | (intro t ht; exact Option.noConfusion ht)
    | (intro t ht
       have hc := Option.some.inj ht
       subst hc
       first
         | exact ⟨rfl, Or.inl rfl⟩
         | exact ⟨rfl, Or.inr (Or.inr rfl)⟩
         | exact ⟨(menuSetModule_cases w _ st).1,
             (menuSetModule_cases w _ st).2.elim Or.inl (fun x => Or.inr (Or.inl x))⟩)

/-- A command of the agent menu never writes `shellAgent`; it stays in the agent
menu or returns to the main menu. -/
theorem shellAgentMenu_cases (w : World) (st s' : ShellState) (cmd : List Str)
    (h : shellAgentMenu w st cmd = some s') :
    s'.shellAgent = st.shellAgent ∧
      (s'.shellMenuContext = st.shellMenuContext ∨ s'.shellMenuContext = goStr "main") := by
  suffices H : (fun r : Option ShellState => ∀ t, r = some t →
      t.shellAgent = st.shellAgent ∧
        (t.shellMenuContext = st.shellMenuContext ∨ t.shellMenuContext = goStr "main"))
      (shellAgentMenu w st cmd) from H s' h
  unfold shellAgentMenu
  repeat' apply ite_induction (fun r : Option ShellState => ∀ t, r = some t →
      t.shellAgent = st.shellAgent ∧
        (t.shellMenuContext = st.shellMenuContext ∨ t.shellMenuContext = goStr "main"))
  all_goals first
    | (intro t ht; exact Option.noConfusion ht)
    | (intro t ht
       have hc := Option.some.inj ht
       subst hc
       first
         | exact ⟨rfl, Or.inl rfl⟩
         | exact ⟨rfl, Or.inr rfl⟩)
    | (intro t ht
       cases hex : shellExecuteShellcode w.env st.shellAgent cmd with
       | panic => rw [hex] at ht; exact Option.noConfusion ht
       | ret e =>
         rw [hex] at ht
         have hc := Option.some.inj ht
         subst hc
         exact ⟨rfl, Or.inl rfl⟩)

/-- One turn of the loop ending in the agent menu: either the console was in
the agent menu already and the selected agent is the same, or the turn started
in the main menu and selected an agent registered at that moment. -/
theorem shellStep_agent (w : World) (st s' : ShellState) (cmd : List Str)
    (h : shellStep w st cmd = some s') (hctx : s'.shellMenuContext = goStr "agent") :
    (st.shellMenuContext = goStr "agent" ∧ s'.shellAgent = st.shellAgent) ∨
    (st.shellMenuContext = goStr "main" ∧ Registered w s'.shellAgent) := by
  have hma : goStr "main" ≠ goStr "agent" := by decide
  have hmo : goStr "module" ≠ goStr "agent" := by decide
  unfold shellStep at h
  by_cases hlen : cmd.length > 0
  swap
  · rw [if_neg hlen] at h
    have hc := Option.some.inj h
    subst hc
    exact Or.inl ⟨hctx, rfl⟩
  rw [if_pos hlen] at h
  by_cases hmain : st.shellMenuContext = goStr "main"
  · rw [if_pos hmain] at h
    rcases shellMain_cases w st s' cmd h with ⟨ha, hc | hc⟩ | ⟨hr, _⟩
    · exact absurd (hctx.symm.trans (hc.trans hmain)).symm hma
    · exact absurd (hc.symm.trans hctx) hmo
    · exact Or.inr ⟨hmain, hr⟩
  rw [if_neg hmain] at h
  by_cases hmod : st.shellMenuContext = goStr "module"
  · rw [if_pos hmod] at h
    obtain ⟨ha, hc | hc | hc⟩ := shellModuleMenu_cases w st s' cmd h
    · exact absurd ((hc.symm.trans hctx).symm.trans hmod) (fun e => hmo e.symm)
    · exact absurd (hc.symm.trans hctx) hmo
    · exact absurd (hc.symm.trans hctx) hma
  rw [if_neg hmod] at h
  by_cases hag : st.shellMenuContext = goStr "agent"
  · rw [if_pos hag] at h
    obtain ⟨ha, hc | hc⟩ := shellAgentMenu_cases w st s' cmd h
    · exact Or.inl ⟨hag, ha⟩
    · exact absurd (hc.symm.trans hctx) hma
  · rw [if_neg hag] at h
    have hc := Option.some.inj h
    subst hc
    exact Or.inl ⟨hctx, rfl⟩

/-- The command `interact` in the main menu: with a second field, `menuAgent`
is called on `["interact", cmd[1]]`. -/
theorem shellMain_interact (w : World) (st : ShellState) (idText : Str) :
    shellMain w st [goStr "interact", idText] =
      some (match w.uuidFromString idText with
        | none => st
        | some i => menuSetAgent w i st) := by
  have h0 : [goStr "interact", idText].getD 0 [] = goStr "interact" := rfl
  have h1 : [goStr "interact", idText].getD 1 [] = idText := rfl
  have hl : [goStr "interact", idText].length > 1 := by simp
  have n1 : ¬ goStr "interact" = goStr "agent" := by decide
  have n2 : ¬ goStr "interact" = goStr "banner" := by decide
  have n3 : ¬ goStr "interact" = goStr "help" := by decide
  have n4 : ¬ goStr "interact" = goStr "?" := by decide
  have n5 : ¬ goStr "interact" = goStr "exit" := by decide
  have n6 : ¬ goStr "interact" = goStr "list" := by decide
  unfold shellMain
  rw [h0, h1, if_neg n1, if_neg n2, if_neg n3, if_neg n4, if_neg n5, if_pos rfl, if_pos hl]
  unfold menuAgent
  rw [h0, h1, if_neg n6, if_pos rfl, if_pos hl]

/-- In the module menu `interact` is no command of the console: the variables
stay as they are. -/
theorem shellModuleMenu_interact (w : World) (st : ShellState) (idText : Str) :
    shellModuleMenu w st [goStr "interact", idText] = some st := by
  have h0 : [goStr "interact", idText].getD 0 [] = goStr "interact" := rfl
  have n1 : ¬ goStr "interact" = goStr "show" := by decide
  have n2 : ¬ goStr "interact" = goStr "info" := by decide
  have n3 : ¬ goStr "interact" = goStr "set" := by decide
  have n4 : ¬ goStr "interact" = goStr "reload" := by decide
  have n5 : ¬ goStr "interact" = goStr "run" := by decide
  have n6 : ¬ goStr "interact" = goStr "back" := by decide
  have n7 : ¬ goStr "interact" = goStr "main" := by decide
  have n8 : ¬ goStr "interact" = goStr "exit" := by decide
  have n9 : ¬ goStr "interact" = goStr "quit" := by decide
  have n10 : ¬ goStr "interact" = goStr "help" := by decide
  have n11 : ¬ goStr "interact" = goStr "?" := by decide
  unfold shellModuleMenu
  rw [h0, if_neg n1, if_neg n2, if_neg n3, if_neg n4, if_neg n5, if_neg n6, if_neg n7,
    if_neg n8, if_neg n9, if_neg n10, if_neg n11]

/-- In the agent menu `interact` is no command of the console: the variables
stay as they are. -/
theorem shellAgentMenu_interact (w : World) (st : ShellState) (idText : Str) :
    shellAgentMenu w st [goStr "interact", idText] = some st := by
  have h0 : [goStr "interact", idText].getD 0 [] = goStr "interact" := rfl
  have n1 : ¬ goStr "interact" = goStr "back" := by decide
  have n2 : ¬ goStr "interact" = goStr "cmd" := by decide
  have n3 : ¬ goStr "interact" = goStr "download" := by decide
  have n4 : ¬ goStr "interact" = goStr "execute-shellcode" := by decide
  have n5 : ¬ goStr "interact" = goStr "exit" := by decide
  have n6 : ¬ goStr "interact" = goStr "help" := by decide
  have n7 : ¬ goStr "interact" = goStr "?" := by decide
  have n8 : ¬ goStr "interact" = goStr "info" := by decide
  have n9 : ¬ goStr "interact" = goStr "kill" := by decide
  have n10 : ¬ goStr "interact" = goStr "main" := by decide
  have n11 : ¬ goStr "interact" = goStr "quit" := by decide
  have n12 : ¬ goStr "interact" = goStr "set" := by decide
  have n13 : ¬ goStr "interact" = goStr "shell" := by decide
  have n14 : ¬ goStr "interact" = goStr "upload" := by decide
  unfold shellAgentMenu
  rw [h0, if_neg n1, if_neg n2, if_neg n3, if_neg n4, if_neg n5, if_neg n6, if_neg n7,
    if_neg n8, if_neg n9, if_neg n10, if_neg n11, if_neg n12, if_neg n13, if_neg n14]

/-- The line `interact <id>` in any state: outside the main menu nothing is
written; in the main menu `menuSetAgent` runs when the identifier parses. -/
theorem shellStep_interact (w : World) (st : ShellState) (idText : Str) :
    shellStep w st [goStr "interact", idText] =
      some (if st.shellMenuContext = goStr "main" then
        match w.uuidFromString idText with
        | none => st
        | some i => menuSetAgent w i st
      else st) := by
  have hl : [goStr "interact", idText].length > 0 := by simp
  unfold shellStep
  rw [if_pos hl]
  by_cases hmain : st.shellMenuContext = goStr "main"
  · rw [if_pos hmain, if_pos hmain, shellMain_interact]
  · rw [if_neg hmain, if_neg hmain]
    by_cases hmod : st.shellMenuContext = goStr "module"
    · rw [if_pos hmod, shellModuleMenu_interact]
    · rw [if_neg hmod]
      by_cases hag : st.shellMenuContext = goStr "agent"
      · rw [if_pos hag, shellAgentMenu_interact]
      · rw [if_neg hag]

/-- Along every run, while the console is in the agent menu the registry logged
at the latest selection holds a record with the ID of the selected agent. -/
theorem runShellLog_selected (trace : List (World × List Str)) :
    ∀ (s : ShellState) (log : Option (List (UUID × AgentRecord))),
      (s.shellMenuContext = goStr "agent" →
        ∃ reg, log = some reg ∧ ∃ e ∈ reg, e.2.ID = s.shellAgent) →
      ∀ st log', runShellLog s log trace = some (st, log') →
        st.shellMenuContext = goStr "agent" →
        ∃ reg, log' = some reg ∧ ∃ e ∈ reg, e.2.ID = st.shellAgent := by
  induction trace with
  | nil =>
    intro s log hinv st log' hrun hctx
    simp only [runShellLog, Option.some.injEq, Prod.mk.injEq] at hrun
    obtain ⟨h1, h2⟩ := hrun
    subst h1 h2
    exact hinv hctx
  | cons x rest ih =>
    obtain ⟨w, cmd⟩ := x
    intro s log hinv st log' hrun hctx
    simp only [runShellLog] at hrun
    cases hstep : shellStep w s cmd with
    | none => rw [hstep] at hrun; exact Option.noConfusion hrun
    | some s' =>
      rw [hstep] at hrun
      simp only at hrun
      refine ih s' _ ?_ st log' hrun hctx
      intro hctx'
      rcases shellStep_agent w s s' cmd hstep hctx' with ⟨hs, ha⟩ | ⟨hs, hr⟩
      · have hsel : isSelection s s' = false := by
          simp [isSelection, hs, ha]
        rw [hsel]
        obtain ⟨reg, hreg, hmem⟩ := hinv hs
        exact ⟨reg, hreg, ha ▸ hmem⟩
      · have hma : goStr "main" ≠ goStr "agent" := by decide
        have hsel : isSelection s s' = true := by
          simp only [isSelection, hctx', hs, ne_eq, hma, not_false_eq_true, true_or, and_self,
            decide_True]
        rw [hsel]
        exact ⟨w.agents, rfl, hr⟩

/-- Claim C13. For every console state and every identifier text, the line
`interact <id>` changes the menu context or the selected agent only by entering
the agent menu with the parsed identifier selected, and only when some record
of the agent registry has that ID; in the main menu it does so whenever the
identifier is registered; for an identifier that is not registered the state is
left as it is.  Hence in every state reached from the initial one in which the
context is "agent", the registry at the time of the latest selection held a
record with the ID of the selected agent. -/
theorem interact_selects_registered_only :
    (∀ (w : World) (st s' : ShellState) (idText : Str),
      shellStep w st [goStr "interact", idText] = some s' →
      s'.shellMenuContext ≠ st.shellMenuContext ∨ s'.shellAgent ≠ st.shellAgent →
      ∃ id, w.uuidFromString idText = some id ∧ Registered w id ∧
        s' = { st with shellAgent := id, shellMenuContext := goStr "agent" }) ∧
    (∀ (w : World) (st : ShellState) (idText : Str) (id : UUID),
      st.shellMenuContext = goStr "main" → w.uuidFromString idText = some id →
      Registered w id →
      shellStep w st [goStr "interact", idText] =
        some { st with shellAgent := id, shellMenuContext := goStr "agent" }) ∧
    (∀ (w : World) (st : ShellState) (idText : Str),
      (∀ id, w.uuidFromString idText = some id → ¬ Registered w id) →
      shellStep w st [goStr "interact", idText] = some st) ∧
    (∀ (m0 : Module) (trace : List (World × List Str)) (st : ShellState)
        (log : Option (List (UUID × AgentRecord))),
      runShellLog (initialState m0) none trace = some (st, log) →
      st.shellMenuContext = goStr "agent" →
      ∃ reg, log = some reg ∧ ∃ e ∈ reg, e.2.ID = st.shellAgent) := by
  refine ⟨?_, ?_, ?_, ?_⟩
  · intro w st s' idText hstep hchange
    have hne : s' ≠ st := by
      intro e
      subst e
      exact hchange.elim (fun h => h rfl) (fun h => h rfl)
    rw [shellStep_interact] at hstep
    have hs := Option.some.inj hstep
    by_cases hmain : st.shellMenuContext = goStr "main"
    · rw [if_pos hmain] at hs
      cases hparse : w.uuidFromString idText with
      | none =>
        rw [hparse] at hs
        exact absurd hs.symm hne
      | some i =>
        rw [hparse] at hs
        simp only at hs
        by_cases hr : Registered w i
        · rw [menuSetAgent_registered w i st hr] at hs
          exact ⟨i, rfl, hr, hs.symm⟩
        · rw [menuSetAgent_unregistered w i st hr] at hs
          exact absurd hs.symm hne
    · rw [if_neg hmain] at hs
      exact absurd hs.symm hne
  · intro w st idText id hmain hparse hr
    rw [shellStep_interact, if_pos hmain, hparse]
    simp only
    rw [menuSetAgent_registered w id st hr]
  · intro w st idText hno
    rw [shellStep_interact]
    by_cases hmain : st.shellMenuContext = goStr "main"
    · rw [if_pos hmain]
      cases hparse : w.uuidFromString idText with
      | none => rfl
      | some i => simp only [menuSetAgent_unregistered w i st (hno i hparse)]
    · rw [if_neg hmain]
  · intro m0 trace st log hrun hctx
    refine runShellLog_selected trace (initialState m0) none ?_ st log hrun hctx
    intro h
    have hma : goStr "main" ≠ goStr "agent" := by decide
    exact absurd h hma

/-- Witness of claim C13: `exampleAgent` is selected while registered; after it
left the registry the console is still in its agent menu, and the registry
logged at the selection holds it. -/
theorem interact_selects_registered_only_witness :
    runShellLog (initialState exampleModule) none exampleSession =
        some (exampleSelected, some exampleWorld.agents) ∧
      exampleSelected.shellMenuContext = goStr "agent" ∧
      ∃ reg, some exampleWorld.agents = some reg ∧
        ∃ e ∈ reg, e.2.ID = exampleSelected.shellAgent :=
  ⟨by rfl, by rfl,
    interact_selects_registered_only.2.2.2 exampleModule exampleSession exampleSelected
      (some exampleWorld.agents) (by rfl) (by rfl)⟩

/-! ## The `0x` step followed by the `\x` step: claim C6, amended -/

theorem hextable_ne_backslash : ∀ n, n < 16 → hextable.getD n 0 ≠ (92 : Byte) := by
  decide

theorem renderBackslashX_cons (v : Byte) (rest : List Byte) :
    renderBackslashX (v :: rest) =
      92 :: 120 :: hextable.getD (v.val / 16) 0 :: hextable.getD (v.val % 16) 0 ::
        renderBackslashX rest := by
  simp only [renderBackslashX, goStr_backslash_x, hexEncodeToString, List.cons_append,
    List.nil_append]

/-- The `\x` form holds no `0x`: the `0x` step leaves it as it is. -/
theorem stringsReplace_0x_renderBackslashX (X : List Byte) :
    stringsReplace (renderBackslashX X) (goStr "0x") [] = renderBackslashX X := by
  unfold stringsReplace
  rw [goStr_0x]
  induction X with
  | nil => rfl
  | cons v rest ih =>
    have hv := v.isLt
    have hx := hextable_ne_x (v.val % 16) (by omega)
    have hx2 : ¬ (120 : Byte) = hextable.getD (v.val % 16) 0 := fun e => hx e.symm
    have n1 : ¬ (48 : Byte) = 92 := by decide
    have n2 : ¬ (48 : Byte) = 120 := by decide
    have htail : ([120] : Str).isPrefixOf (renderBackslashX rest) = false := by
      cases rest with
      | nil => rfl
      | cons u r =>
        rw [renderBackslashX_cons]
        simp [List.isPrefixOf]
    have e1 : ((48 : Byte) == 92) = false := by decide
    have e2 : ((48 : Byte) == 120) = false := by decide
    have e3 : ((120 : Byte) == hextable.getD (v.val % 16) 0) = false :=
      beq_eq_false_iff_ne.mpr hx2
    rw [renderBackslashX_cons]
    simp only [stringsReplaceAux, List.isPrefixOf, e1, e2, e3, htail, Bool.false_and,
      Bool.and_false, Bool.false_eq_true, if_false, ih]

/-- The `\x` step on the `\x` form leaves the hex text of the bytes. -/
theorem stringsReplace_backslashX_renderBackslashX (X : List Byte) :
    stringsReplace (renderBackslashX X) (goStr "\\x") [] = hexEncodeToString X := by
  unfold stringsReplace
  rw [goStr_backslash_x]
  induction X with
  | nil => rfl
  | cons v rest ih =>
    have hv := v.isLt
    have h1 := hextable_ne_backslash (v.val / 16) (by omega)
    have h2 := hextable_ne_backslash (v.val % 16) (by omega)
    have h1s : ¬ (92 : Byte) = hextable.getD (v.val / 16) 0 := fun e => h1 e.symm
    have h2s : ¬ (92 : Byte) = hextable.getD (v.val % 16) 0 := fun e => h2 e.symm
    have e1 : ((92 : Byte) == hextable.getD (v.val / 16) 0) = false :=
      beq_eq_false_iff_ne.mpr h1s
    have e2 : ((92 : Byte) == hextable.getD (v.val % 16) 0) = false :=
      beq_eq_false_iff_ne.mpr h2s
    rw [renderBackslashX_cons]
    simp only [stringsReplaceAux, List.isPrefixOf, beq_self_eq_true, Bool.and_self, if_true,
      List.nil_append, List.length_cons, List.length_nil, Nat.reduceAdd, Nat.add_one_sub_one,
      e1, e2, Bool.false_and, Bool.false_eq_true, if_false, ih, hexEncodeToString]

/-- The `\x` form holds neither commas nor spaces. -/
theorem renderBackslashX_filter (c : Byte) (h92 : (92 : Byte) ≠ c) (h120 : (120 : Byte) ≠ c)
    (hc : ∀ n, n < 16 → hextable.getD n 0 ≠ c) (X : List Byte) :
    (renderBackslashX X).filter (fun x => x != c) = renderBackslashX X := by
  induction X with
  | nil => rfl
  | cons v rest ih =>
    have hv := v.isLt
    have h1 := hc (v.val / 16) (by omega)
    have h2 := hc (v.val % 16) (by omega)
    rw [renderBackslashX_cons]
    simp only [List.filter_cons, bne_iff_ne, ne_eq, h92, h120, h1, h2, not_false_eq_true,
      if_true, ih]

/-- The `0x` step on `0x` followed by the `\x` form leaves the `\x` form. -/
theorem stripMarker_0x_renderBackslashX (X : List Byte) :
    stripMarker (goStr "0x") (goStr "0x" ++ renderBackslashX X) = renderBackslashX X := by
  have hrep : stringsReplace (goStr "0x" ++ renderBackslashX X) (goStr "0x") [] =
      renderBackslashX X := by
    have h := stringsReplace_0x_renderBackslashX X
    unfold stringsReplace at h ⊢
    rw [goStr_0x] at h ⊢
    simp only [List.cons_append, List.nil_append, stringsReplaceAux, List.isPrefixOf,
      beq_self_eq_true, Bool.and_self, List.isPrefixOf_nil_left, if_true, List.length_cons,
      List.length_nil, Nat.reduceAdd, Nat.add_one_sub_one]
    exact h
  rw [stripMarker_eq, hrep,
    renderBackslashX_filter 44 (by decide) (by decide) (fun n hn => (hextable_digit n hn).2.1),
    renderBackslashX_filter 32 (by decide) (by decide) (fun n hn => (hextable_digit n hn).2.2.1)]

/-- The `\x` step on the `\x` form leaves the hex text. -/
theorem stripMarker_backslashX_renderBackslashX (X : List Byte) :
    stripMarker (goStr "\\x") (renderBackslashX X) = hexEncodeToString X := by
  rw [stripMarker_eq, stringsReplace_backslashX_renderBackslashX,
    hexEncode_filter 44 (fun n hn => (hextable_digit n hn).2.1),
    hexEncode_filter 32 (fun n hn => (hextable_digit n hn).2.2.1)]

/-- The text `0x\x...` is no base64: its third character is a backslash. -/
theorem base64Decode_0x_renderBackslashX (v : Byte) (rest : List Byte) :
    base64DecodeString (goStr "0x" ++ renderBackslashX (v :: rest)) = none := by
  have d0 : decodeMap 48 = some 52 := by decide
  have dx : decodeMap 120 = some 49 := by decide
  have db : decodeMap 92 = none := by decide
  have nb : isNewline 92 = false := by decide
  have pb : (92 : Byte) ≠ padChar := by decide
  rw [renderBackslashX_cons, goStr_0x]
  simp [base64DecodeString, base64Decode, d0, dx, db, nb, pb]

/-- On text that holds, after alphabet characters only, a character that is
neither of the alphabet nor a newline nor the padding, base64 decoding fails. -/
theorem base64Decode_bad_char (c : Byte) (post : Str) (hc : decodeMap c = none)
    (hn : isNewline c = false) (hp : c ≠ padChar) (pre : Str) :
    ∀ dbuf : List Nat, (∀ x ∈ pre, ∃ v, decodeMap x = some v) →
      base64Decode (pre ++ c :: post) dbuf = none := by
  induction pre with
  | nil =>
    intro dbuf _
    simp [base64Decode, hc, hn, hp]
  | cons a rest ih =>
    intro dbuf halpha
    obtain ⟨out, hout⟩ := halpha a (List.mem_cons_self _ _)
    have hrest : ∀ x ∈ rest, ∃ v, decodeMap x = some v :=
      fun x hx => halpha x (List.mem_cons_of_mem _ hx)
    simp only [List.cons_append, base64Decode, hout, List.append_eq]
    split
    · rw [ih [] hrest]
      rfl
    · exact ih _ hrest

/-- Hex digits followed by the `\x` form hold no `0x`. -/
theorem stringsReplace_0x_hex_renderBackslashX (X Y : List Byte) :
    stringsReplace (hexEncodeToString X ++ renderBackslashX Y) (goStr "0x") [] =
      hexEncodeToString X ++ renderBackslashX Y := by
  induction X with
  | nil => exact stringsReplace_0x_renderBackslashX Y
  | cons v rest ih =>
    unfold stringsReplace at ih ⊢
    rw [goStr_0x] at ih ⊢
    have hv := v.isLt
    have hx := hextable_ne_x (v.val % 16) (by omega)
    have e3 : ((120 : Byte) == hextable.getD (v.val % 16) 0) = false :=
      beq_eq_false_iff_ne.mpr (fun e => hx e.symm)
    have htail : ([120] : Str).isPrefixOf (hexEncodeToString rest ++ renderBackslashX Y)
        = false := by
      cases rest with
      | nil =>
        cases Y with
        | nil => rfl
        | cons u r =>
          rw [renderBackslashX_cons]
          simp [hexEncodeToString, List.isPrefixOf]
      | cons u r =>
        have hu := u.isLt
        have hxu := hextable_ne_x (u.val / 16) (by omega)
        have e4 : ((120 : Byte) == hextable.getD (u.val / 16) 0) = false :=
          beq_eq_false_iff_ne.mpr (fun e => hxu e.symm)
        simp only [hexEncodeToString, List.cons_append, List.isPrefixOf, e4, Bool.false_and]
    simp only [hexEncodeToString, List.cons_append, stringsReplaceAux, List.isPrefixOf, e3,
      List.append_eq, htail, Bool.false_and, Bool.and_false, Bool.false_eq_true, if_false, ih]

/-- Hex decoding of hex digits followed by the `\x` form stops at the backslash. -/
theorem hexDecode_hex_renderBackslashX (X : List Byte) (u : Byte) (Y : List Byte) :
    hexDecodeString (hexEncodeToString X ++ renderBackslashX (u :: Y)) =
      .error (.invalidByte 92) := by
  induction X with
  | nil =>
    have h92 : fromHexChar 92 = none := by decide
    rw [renderBackslashX_cons]
    simp only [hexEncodeToString, List.nil_append, hexDecodeString, h92]
  | cons v rest ih =>
    have hv := v.isLt
    have h1 : v.val / 16 < 16 := by omega
    have h2 : v.val % 16 < 16 := by omega
    simp only [hexEncodeToString, List.cons_append, hexDecodeString, fromHexChar_hextable _ h1,
      fromHexChar_hextable _ h2, List.append_eq, ih]

/-- A leading `0x` is removed by the `0x` step, which then goes on with the rest. -/
theorem stringsReplace_0x_prefix (t : Str) :
    stringsReplace (goStr "0x" ++ t) (goStr "0x") [] = stringsReplace t (goStr "0x") [] := by
  unfold stringsReplace
  rw [goStr_0x]
  simp only [List.cons_append, List.nil_append, stringsReplaceAux, List.isPrefixOf,
    beq_self_eq_true, Bool.and_self, List.isPrefixOf_nil_left, if_true, List.length_cons,
    List.length_nil, Nat.reduceAdd, Nat.add_one_sub_one, List.append_eq]

/-- Claim C6, amended. The `0x` step and the `\x` step run one after the other.
For every input whose (possibly base64-decoded) text begins with `0x` and keeps
two bytes or more once all `0x` and the comma and space separators are removed,
the `\x` step runs on what is left: when it begins with `\x`, all `\x` and the
separators are removed and the result is hex-decoded; when it does not, it is
hex-decoded as it stands.  So `0x` followed by the bytes of a non-empty sequence
written `\xHH` decodes to that sequence, while `0x` followed by hex digits and
then `\xHH` sequences ends in the invalid-byte error for the backslash, the
`\x` sequences being left in place. -/
theorem parseHex_0x_then_backslash_x :
    (∀ str : List Str, (chainText str).take 2 = goStr "0x" →
      2 ≤ (stripMarker (goStr "0x") (chainText str)).length →
      parseHex str =
        .ret (hexDecodeString
          (if (stripMarker (goStr "0x") (chainText str)).take 2 = goStr "\\x"
           then stripMarker (goStr "\\x") (stripMarker (goStr "0x") (chainText str))
           else stripMarker (goStr "0x") (chainText str)))) ∧
    (∀ X : List Byte, X ≠ [] →
      parseHex [goStr "0x" ++ renderBackslashX X] = .ret (.ok X)) ∧
    (∀ X Y : List Byte, X ≠ [] → Y ≠ [] →
      parseHex [goStr "0x" ++ hexEncodeToString X ++ renderBackslashX Y] =
        .ret (.error (.invalidByte 92))) := by
  refine ⟨?_, ?_, ?_⟩
  · intro str h0 hlen
    have hl : ¬ (chainText str).length < 2 := by
      intro hlt
      have h2 : ((chainText str).take 2).length = 2 := by rw [h0]; decide
      rw [List.length_take] at h2
      omega
    have hlen2 : ¬ (stripMarker (goStr "0x") (chainText str)).length < 2 := by omega
    rw [parseHex_eq]
    simp only [h0, hl, hlen2, if_true, if_false]
  · intro X hX
    match X, hX with
    | v :: rest, _ =>
      have hchain : chainText [goStr "0x" ++ renderBackslashX (v :: rest)] =
          goStr "0x" ++ renderBackslashX (v :: rest) := by
        simp only [chainText, stringsJoin, List.flatten, List.append_nil,
          base64Decode_0x_renderBackslashX v rest]
      have htake : (goStr "0x" ++ renderBackslashX (v :: rest)).take 2 = goStr "0x" := by
        simp [goStr_0x]
      have hl : ¬ (goStr "0x" ++ renderBackslashX (v :: rest)).length < 2 := by
        simp [goStr_0x]
      have hl2 : ¬ (renderBackslashX (v :: rest)).length < 2 := by
        rw [renderBackslashX_cons]
        simp
      have htake2 : (renderBackslashX (v :: rest)).take 2 = goStr "\\x" := by
        rw [renderBackslashX_cons, goStr_backslash_x]
        rfl
      rw [parseHex_eq, hchain]
      simp only [htake, if_true, stripMarker_0x_renderBackslashX, hl, hl2, htake2, if_false,
        stripMarker_backslashX_renderBackslashX, hexDecode_encode]
  · intro X Y hX hY
    match X, hX, Y, hY with
    | v :: rest, _, u :: more, _ =>
      have hv := v.isLt
      have halpha : ∀ x ∈ goStr "0x" ++ hexEncodeToString (v :: rest),
          ∃ o, decodeMap x = some o := by
        intro x hx
        rcases List.mem_append.mp hx with h | h
        · rw [goStr_0x] at h
          simp only [List.mem_cons, List.mem_singleton, List.not_mem_nil, or_false] at h
          rcases h with h | h
          · subst h; exact ⟨52, by decide⟩
          · subst h; exact ⟨49, by decide⟩
        · exact hexEncode_alphabet _ x h
      have hb64 : base64DecodeString
          (goStr "0x" ++ hexEncodeToString (v :: rest) ++ renderBackslashX (u :: more))
          = none := by
        rw [renderBackslashX_cons]
        exact base64Decode_bad_char 92 _ (by decide) (by decide) (by decide) _ [] halpha
      have hchain : chainText
          [goStr "0x" ++ hexEncodeToString (v :: rest) ++ renderBackslashX (u :: more)] =
          goStr "0x" ++ hexEncodeToString (v :: rest) ++ renderBackslashX (u :: more) := by
        simp only [chainText, stringsJoin, List.flatten, List.append_nil, hb64]
      have htake : (goStr "0x" ++ hexEncodeToString (v :: rest) ++
          renderBackslashX (u :: more)).take 2 = goStr "0x" := by
        simp [goStr_0x]
      have hl : ¬ (goStr "0x" ++ hexEncodeToString (v :: rest) ++
          renderBackslashX (u :: more)).length < 2 := by
        simp [goStr_0x]
      have hrep : stringsReplace (goStr "0x" ++ hexEncodeToString (v :: rest) ++
          renderBackslashX (u :: more)) (goStr "0x") [] =
          hexEncodeToString (v :: rest) ++ renderBackslashX (u :: more) := by
        rw [List.append_assoc, stringsReplace_0x_prefix,
          stringsReplace_0x_hex_renderBackslashX]
      have hstrip : stripMarker (goStr "0x") (goStr "0x" ++ hexEncodeToString (v :: rest) ++
          renderBackslashX (u :: more)) =
          hexEncodeToString (v :: rest) ++ renderBackslashX (u :: more) := by
        rw [stripMarker_eq, hrep, List.filter_append, List.filter_append,
          hexEncode_filter 44 (fun n hn => (hextable_digit n hn).2.1),
          renderBackslashX_filter 44 (by decide) (by decide)
            (fun n hn => (hextable_digit n hn).2.1),
          hexEncode_filter 32 (fun n hn => (hextable_digit n hn).2.2.1),
          renderBackslashX_filter 32 (by decide) (by decide)
            (fun n hn => (hextable_digit n hn).2.2.1)]
      have hl2 : ¬ (hexEncodeToString (v :: rest) ++ renderBackslashX (u :: more)).length < 2 := by
        simp [hexEncodeToString]
      have h92 := hextable_ne_backslash (v.val / 16) (by omega)
      have htake2 : (hexEncodeToString (v :: rest) ++ renderBackslashX (u :: more)).take 2 ≠
          goStr "\\x" := by
        rw [goStr_backslash_x]
        simp only [hexEncodeToString, List.cons_append, List.take_succ_cons, List.take_zero]
        intro h
        exact h92 (List.cons.inj h).1
      rw [parseHex_eq, hchain]
      simp only [htake, if_true, hstrip, hl, hl2, htake2, if_false,
        hexDecode_hex_renderBackslashX]

/-- Witness of the amended claim C6: the text `0x\x90`, the form `0x\x90\xc3`
of the bytes `90 c3`, and the form `0x90\xc3`. -/
theorem parseHex_0x_then_backslash_x_witness :
    ((chainText [goStr "0x\\x90"]).take 2 = goStr "0x" ∧
      2 ≤ (stripMarker (goStr "0x") (chainText [goStr "0x\\x90"])).length ∧
      parseHex [goStr "0x\\x90"] =
        .ret (hexDecodeString
          (if (stripMarker (goStr "0x") (chainText [goStr "0x\\x90"])).take 2 = goStr "\\x"
           then stripMarker (goStr "\\x")
             (stripMarker (goStr "0x") (chainText [goStr "0x\\x90"]))
           else stripMarker (goStr "0x") (chainText [goStr "0x\\x90"])))) ∧
    (goStr "0x" ++ renderBackslashX [0x90, 0xc3] = goStr "0x\\x90\\xc3" ∧
      parseHex [goStr "0x" ++ renderBackslashX [0x90, 0xc3]] = .ret (.ok [0x90, 0xc3])) ∧
    (goStr "0x" ++ hexEncodeToString [0x90] ++ renderBackslashX [0xc3] = goStr "0x90\\xc3" ∧
      parseHex [goStr "0x" ++ hexEncodeToString [0x90] ++ renderBackslashX [0xc3]] =
        .ret (.error (.invalidByte 92))) :=
  ⟨⟨by decide, by decide,
      parseHex_0x_then_backslash_x.1 [goStr "0x\\x90"] (by decide) (by decide)⟩,
    ⟨by decide, parseHex_0x_then_backslash_x.2.1 [0x90, 0xc3] (by decide)⟩,
    ⟨by decide, parseHex_0x_then_backslash_x.2.2 [0x90] [0xc3] (by decide) (by decide)⟩⟩

end Merlin
